import Mathlib

/-!
# webdetector — detection engine, per-URL pipeline and report rendering

A shallow embedding of `webdetector.go` (`main.go` is the same program without
comments).  Go strings are byte sequences, so they are modelled as lists of
natural numbers (each byte `< 256`).  The network, the regular-expression
compiler and the process streams are explicit parameters / explicit state.

The functions of the Go standard library that the program calls are modelled
after their Go sources: `strings.Contains`, `strings.HasPrefix`,
`regexp.MatchString`, `utf8.EncodeRune`, `utf8.DecodeRuneInString`,
`utf8.ValidString`, and `json.Marshal` / `json.Unmarshal` at the type
`[]DetectionResult`.  Loops whose index advances by a computed width carry a
fuel argument that the entry points set large enough.
-/

namespace WebDetector

/-! ## Strings -/

/-- A Go `string`: an arbitrary sequence of bytes (not necessarily UTF-8). -/
abbrev GoString := List Nat

/-- Go `utf8.RuneError`, the replacement character U+FFFD. -/
def RuneError : Nat := 0xFFFD

/-- Go `utf8.EncodeRune`: the UTF-8 bytes of rune `r` (runes are non-negative
here).  Surrogates and values above `utf8.MaxRune` are written as U+FFFD. -/
def EncodeRune (r : Nat) : List Nat :=
  if r ≤ 0x7F then [r % 256]
  else if r ≤ 0x7FF then
    [0xC0 ||| ((r >>> 6) % 256), 0x80 ||| ((r % 256) &&& 0x3F)]
  else
    let r := if r > 0x10FFFF ∨ (0xD800 ≤ r ∧ r ≤ 0xDFFF) then RuneError else r
    if r ≤ 0xFFFF then
      [0xE0 ||| ((r >>> 12) % 256), 0x80 ||| (((r >>> 6) % 256) &&& 0x3F),
        0x80 ||| ((r % 256) &&& 0x3F)]
    else
      [0xF0 ||| ((r >>> 18) % 256), 0x80 ||| (((r >>> 12) % 256) &&& 0x3F),
        0x80 ||| (((r >>> 6) % 256) &&& 0x3F), 0x80 ||| ((r % 256) &&& 0x3F)]

/-- The bytes of a Go string literal written in the source (UTF-8 of its text). -/
def str (s : String) : GoString :=
  s.toList.flatMap (fun c => EncodeRune c.toNat)

/-- Go `strings.HasPrefix(s, prefix)`. -/
def HasPrefix : GoString → GoString → Bool
  | _, [] => true
  | [], _ :: _ => false
  | a :: s, b :: p => a == b && HasPrefix s p

/-- Go `strings.Contains(s, substr)`: `substr` occurs at some byte offset of `s`. -/
def Contains : GoString → GoString → Bool
  | [], substr => HasPrefix [] substr
  | a :: s, substr => HasPrefix (a :: s) substr || Contains s substr

/-! ## Data model -/

/-- The Go struct `Web`: one signature of the pattern store. -/
structure Web where
  ID : GoString := []
  Patterns : List GoString := []
  RegexPatterns : List GoString := []
  Name : GoString := []
  Typ : GoString := []
deriving DecidableEq, Repr

/-- The Go struct `DetectionResult` (field `Typ` is Go's `Type`). -/
structure DetectionResult where
  URL : GoString := []
  Web : GoString := []
  Typ : GoString := []
deriving DecidableEq, Repr

/-! ## Regular expressions

The regexp engine is a parameter: `Compile pattern` is either an error message
or the compiled expression, given by its search predicate on texts. -/

/-- Go `regexp.Compile`, as a parameter of the model. -/
abbrev Compiler := GoString → Except GoString (GoString → Bool)

/-- Go `regexp.MatchString(pattern, s)`: compiles the pattern; a pattern that
does not compile yields `(false, err)`, otherwise the search result. -/
def MatchString (Compile : Compiler) (pattern s : GoString) : Bool × Option GoString :=
  match Compile pattern with
  | .error err => (false, some err)
  | .ok re => (re s, none)

/-! ## Matcher -/

/-- The first inner loop of `detectWeb`: does some literal pattern occur in the page? -/
def matchPatterns (pageSource : GoString) : List GoString → Bool
  | [] => false
  | pattern :: rest =>
    if Contains pageSource pattern then true else matchPatterns pageSource rest

/-- The second inner loop of `detectWeb`: does some regex pattern match the page?
The error returned by `regexp.MatchString` is discarded. -/
def matchRegexPatterns (Compile : Compiler) (pageSource : GoString) : List GoString → Bool
  | [] => false
  | regexPattern :: rest =>
    if (MatchString Compile regexPattern pageSource).1 then true
    else matchRegexPatterns Compile pageSource rest

/-- The Go function `detectWeb`. -/
def detectWeb (Compile : Compiler) : List Web → GoString → Web
  | [], _ => {}
  | web :: rest, pageSource =>
    if matchPatterns pageSource web.Patterns then web
    else if matchRegexPatterns Compile pageSource web.RegexPatterns then web
    else detectWeb Compile rest pageSource

/-! ## Fetcher -/

/-- An HTTP request, as far as the redirect policy can see it. -/
structure Request where
  URL : GoString
deriving DecidableEq, Repr

/-- Go `http.ErrUseLastResponse`. -/
def ErrUseLastResponse : GoString := str "net/http: use last response"

/-- The `CheckRedirect` closure installed by `fetchPageSource`: `none` is Go's
`nil` (follow the redirect), `some err` refuses it. -/
def checkRedirect (followRedirect : Bool) (_req : Request) (_via : List Request) :
    Option GoString :=
  if !followRedirect then some ErrUseLastResponse else none

/-- The fields of `http.Client` (and of its transport) that `fetchPageSource` sets. -/
structure Client where
  Timeout : Int
  CheckRedirect : Request → List Request → Option GoString
  InsecureSkipVerify : Bool

/-- The network: `Get` is `client.Get`, `ReadAll` is `ioutil.ReadAll` on the
response body.  Both act on an explicit world state and may fail with a message. -/
structure Net where
  World : Type
  Response : Type
  Get : Client → GoString → World → Except GoString Response × World
  ReadAll : Response → World → Except GoString GoString × World

/-- The `http.Client` that `fetchPageSource` builds before the request: the
timeout, the redirect policy, and a transport that verifies certificates only
when `strict` is set. -/
def newClient (timeout : Int) (strict followRedirect : Bool) : Client :=
  { Timeout := timeout
    CheckRedirect := checkRedirect followRedirect
    InsecureSkipVerify := if strict then false else true }

/-- The Go function `fetchPageSource`. -/
def fetchPageSource (N : Net) (url : GoString) (timeout : Int) (strict followRedirect : Bool)
    (w : N.World) : Except GoString GoString × N.World :=
  match N.Get (newClient timeout strict followRedirect) url w with
  | (.error err, w1) => (.error err, w1)
  | (.ok resp, w1) =>
    match N.ReadAll resp w1 with
    | (.error err, w2) => (.error err, w2)
    | (.ok bytes, w2) => (.ok bytes, w2)

/-! ## Pipeline -/

/-- The state of the process: the world behind the network and the two streams. -/
structure Proc (N : Net) where
  world : N.World
  stdout : GoString
  stderr : GoString

/-- The Go function `processURL`. -/
def processURL (N : Net) (Compile : Compiler) (url : GoString) (webList : List Web)
    (timeout : Int) (strict followRedirect logEnabled : Bool) (st : Proc N) :
    DetectionResult × Proc N :=
  match fetchPageSource N url timeout strict followRedirect st.world with
  | (.error err, w) =>
    let st1 : Proc N :=
      if logEnabled then
        { world := w, stdout := st.stdout,
          stderr := st.stderr ++ (str "Error fetching page source for " ++ url ++ str ": "
            ++ err ++ str "\n") }
      else { world := w, stdout := st.stdout, stderr := st.stderr }
    ({ URL := url, Web := str "error: " ++ err }, st1)
  | (.ok pageSource, w) =>
    let st1 : Proc N := { world := w, stdout := st.stdout, stderr := st.stderr }
    let web := detectWeb Compile webList pageSource
    if web.Name ≠ [] then ({ URL := url, Web := web.Name, Typ := web.Typ }, st1)
    else ({ URL := url, Web := str "unknown", Typ := str "web" }, st1)

/-- The progress line printed by the loop of `main` for one result. -/
def progressLine (result : DetectionResult) : GoString :=
  if result.Web == str "unknown" || HasPrefix result.Web (str "error") then
    result.URL ++ str " \n"
  else
    result.URL ++ str " [" ++ result.Typ ++ str ":" ++ result.Web ++ str "]\n"

/-- The `for _, u := range urls` loop of `main`: `results` is the slice built so far. -/
def mainLoop (N : Net) (Compile : Compiler) (webList : List Web) (timeout : Int)
    (strict followRedirect logEnabled : Bool) :
    List GoString → List DetectionResult → Proc N → List DetectionResult × Proc N
  | [], results, st => (results, st)
  | u :: urls, results, st =>
    let (result, st1) := processURL N Compile u webList timeout strict followRedirect logEnabled st
    mainLoop N Compile webList timeout strict followRedirect logEnabled urls
      (results ++ [result])
      { world := st1.world, stdout := st1.stdout ++ progressLine result, stderr := st1.stderr }

/-! ## UTF-8 decoding (Go package `unicode/utf8`) -/

/-- Go `utf8.first`: information about the first byte of a UTF-8 sequence, the
256-entry table written by byte ranges (`0xF0` is `as`, `0xF1` is `xx`; the low
three bits of the other entries are the sequence length, the high four bits index
`acceptRanges`). -/
def first (b : Nat) : Nat :=
  if b < 0x80 then 0xF0
  else if b < 0xC2 then 0xF1
  else if b < 0xE0 then 0x02
  else if b = 0xE0 then 0x13
  else if b < 0xED then 0x03
  else if b = 0xED then 0x23
  else if b < 0xF0 then 0x03
  else if b = 0xF0 then 0x34
  else if b < 0xF4 then 0x04
  else if b = 0xF4 then 0x44
  else 0xF1

/-- Go `utf8.acceptRanges`: the range of valid second bytes, as `(lo, hi)`. -/
def acceptRanges (i : Nat) : Nat × Nat :=
  match i with
  | 0 => (0x80, 0xBF)
  | 1 => (0xA0, 0xBF)
  | 2 => (0x80, 0x9F)
  | 3 => (0x90, 0xBF)
  | 4 => (0x80, 0x8F)
  | _ => (0, 0)

/-- Go `utf8.DecodeRuneInString`: the first rune of `s` and its width in bytes;
`(RuneError, 0)` on the empty string and `(RuneError, 1)` on an invalid encoding. -/
def DecodeRune (s : List Nat) : Nat × Nat :=
  match s with
  | [] => (RuneError, 0)
  | s0 :: t =>
    let x := first s0
    if x ≥ 0xF0 then
      if x = 0xF0 then (s0, 1) else (RuneError, 1)
    else
      let sz := x &&& 7
      let accept := acceptRanges (x >>> 4)
      if s.length < sz then (RuneError, 1)
      else
        match t with
        | [] => (RuneError, 1)
        | s1 :: t1 =>
          if s1 < accept.1 ∨ accept.2 < s1 then (RuneError, 1)
          else if sz ≤ 2 then (((s0 &&& 0x1F) <<< 6) ||| (s1 &&& 0x3F), 2)
          else
            match t1 with
            | [] => (RuneError, 1)
            | s2 :: t2 =>
              if s2 < 0x80 ∨ 0xBF < s2 then (RuneError, 1)
              else if sz ≤ 3 then
                (((s0 &&& 0x0F) <<< 12) ||| ((s1 &&& 0x3F) <<< 6) ||| (s2 &&& 0x3F), 3)
              else
                match t2 with
                | [] => (RuneError, 1)
                | s3 :: _ =>
                  if s3 < 0x80 ∨ 0xBF < s3 then (RuneError, 1)
                  else
                    (((s0 &&& 0x07) <<< 18) ||| ((s1 &&& 0x3F) <<< 12) |||
                      ((s2 &&& 0x3F) <<< 6) ||| (s3 &&& 0x3F), 4)

/-- The loop of Go `utf8.ValidString`, with `fuel` bounding the iterations: no
position of the string decodes to an encoding error. -/
def validLoop : Nat → List Nat → Bool
  | 0, s => s.isEmpty
  | fuel + 1, s =>
    match s with
    | [] => true
    | _ :: _ =>
      if (DecodeRune s).1 = RuneError ∧ (DecodeRune s).2 = 1 then false
      else validLoop fuel (s.drop (DecodeRune s).2)

/-- Go `utf8.ValidString`: the string consists entirely of valid UTF-8 encodings. -/
def ValidString (s : GoString) : Bool :=
  validLoop s.length s

/-! ## JSON rendering (Go `json.Marshal` on `[]DetectionResult`) -/

/-- Go `encoding/json`'s `htmlSafeSet`: the ASCII bytes written without escaping
when HTML escaping is on (the default of `json.Marshal`): every byte from space
to DEL except the double quote, `&`, `<`, `>` and the backslash. -/
def htmlSafe (b : Nat) : Bool :=
  decide (0x20 ≤ b ∧ b < 0x80 ∧ b ≠ 0x22 ∧ b ≠ 0x26 ∧ b ≠ 0x3C ∧ b ≠ 0x3E ∧ b ≠ 0x5C)

/-- Go `encoding/json`'s `hex` digits: `"0123456789abcdef"[n]`. -/
def hex (n : Nat) : Nat :=
  if n < 10 then 0x30 + n else 0x61 + (n - 10)

/-- What `appendString` writes for one ASCII byte that is not in `htmlSafeSet`. -/
def escapeByte (b : Nat) : List Nat :=
  if b = 0x5C ∨ b = 0x22 then [0x5C, b]
  else if b = 0x08 then [0x5C, 0x62]
  else if b = 0x0C then [0x5C, 0x66]
  else if b = 0x0A then [0x5C, 0x6E]
  else if b = 0x0D then [0x5C, 0x72]
  else if b = 0x09 then [0x5C, 0x74]
  else [0x5C, 0x75, 0x30, 0x30, hex (b >>> 4), hex (b &&& 0xF)]

/-- The loop of Go `encoding/json`'s `appendString` (HTML escaping on), with
`fuel` bounding the iterations: the body of the JSON string literal for `src`. -/
def appendStringLoop : Nat → List Nat → List Nat
  | 0, _ => []
  | fuel + 1, src =>
    match src with
    | [] => []
    | b :: rest =>
      if b < 0x80 then
        if htmlSafe b then b :: appendStringLoop fuel rest
        else escapeByte b ++ appendStringLoop fuel rest
      else
        let c := (DecodeRune src).1
        let size := (DecodeRune src).2
        if c = RuneError ∧ size = 1 then
          str "\\ufffd" ++ appendStringLoop fuel rest
        else if c = 0x2028 ∨ c = 0x2029 then
          [0x5C, 0x75, 0x32, 0x30, 0x32, hex (c &&& 0xF)]
            ++ appendStringLoop fuel (src.drop size)
        else
          src.take size ++ appendStringLoop fuel (src.drop size)

/-- Go `encoding/json`'s `appendString`: the quoted JSON string literal for `src`. -/
def appendString (src : GoString) : List Nat :=
  0x22 :: (appendStringLoop src.length src ++ [0x22])

/-- The JSON object written for one `DetectionResult`, with the keys of its
struct tags: `url`, `web`, `type`. -/
def marshalResult (r : DetectionResult) : List Nat :=
  str "\x7b\"url\":" ++ appendString r.URL ++ str ",\"web\":" ++ appendString r.Web
    ++ str ",\"type\":" ++ appendString r.Typ ++ str "\x7d"

/-- The elements of a JSON array, separated by commas. -/
def marshalElems : List DetectionResult → List Nat
  | [] => []
  | [r] => marshalResult r
  | r :: rs => marshalResult r ++ 0x2C :: marshalElems rs

/-- Go `json.Marshal(results)` as called by `main`: the slice `results` is nil
when no URL was processed and is then written as `null`, otherwise it is written
as an array of objects. -/
def Marshal (results : List DetectionResult) : GoString :=
  match results with
  | [] => str "null"
  | _ :: _ => 0x5B :: (marshalElems results ++ [0x5D])

/-! ## JSON parsing (Go `json.Unmarshal` into `[]DetectionResult`) -/

/-- A JSON value. -/
inductive JSON where
  | null
  | bool (b : Bool)
  | num (raw : List Nat)
  | str (s : GoString)
  | arr (elems : List JSON)
  | obj (members : List (GoString × JSON))

/-- JSON white space: space, tab, carriage return, line feed. -/
def isSpace (c : Nat) : Bool :=
  c == 0x20 || c == 0x09 || c == 0x0D || c == 0x0A

/-- Skips leading white space. -/
def skipSpace : List Nat → List Nat
  | [] => []
  | c :: t => if isSpace c then skipSpace t else c :: t

/-- The value of a hexadecimal digit, as in Go `getu4`. -/
def hexVal (c : Nat) : Option Nat :=
  if 0x30 ≤ c ∧ c ≤ 0x39 then some (c - 0x30)
  else if 0x61 ≤ c ∧ c ≤ 0x66 then some (c - 0x61 + 10)
  else if 0x41 ≤ c ∧ c ≤ 0x46 then some (c - 0x41 + 10)
  else none

/-- Go `encoding/json`'s `getu4`: the rune of a leading `\uXXXX`, `none` for Go's `-1`. -/
def getu4 (s : List Nat) : Option Nat :=
  match s with
  | 0x5C :: 0x75 :: a :: b :: c :: d :: _ =>
    match hexVal a, hexVal b, hexVal c, hexVal d with
    | some a, some b, some c, some d => some (((a * 16 + b) * 16 + c) * 16 + d)
    | _, _, _, _ => none
  | _ => none

/-- Go `utf16.DecodeRune`: the rune of a surrogate pair, U+FFFD when invalid. -/
def utf16DecodeRune (r1 r2 : Nat) : Nat :=
  if 0xD800 ≤ r1 ∧ r1 < 0xDC00 ∧ 0xDC00 ≤ r2 ∧ r2 < 0xE000 then
    (((r1 - 0xD800) <<< 10) ||| (r2 - 0xDC00)) + 0x10000
  else RuneError

/-- The body of a JSON string literal, read after its opening quote up to the
closing quote and unquoted as by the loop of Go `encoding/json`'s `unquoteBytes`
(escapes resolved, invalid UTF-8 replaced by U+FFFD); returns the string and
the input after the closing quote, `none` on a syntax error. -/
def unquoteLoop : Nat → List Nat → Option (List Nat × List Nat)
  | 0, _ => none
  | fuel + 1, s =>
    match s with
    | [] => none
    | c :: t =>
      if c = 0x22 then some ([], t)
      else if c = 0x5C then
        match t with
        | [] => none
        | e :: t1 =>
          if e = 0x22 ∨ e = 0x5C ∨ e = 0x2F then
            (unquoteLoop fuel t1).map (fun p => (e :: p.1, p.2))
          else if e = 0x62 then (unquoteLoop fuel t1).map (fun p => (0x08 :: p.1, p.2))
          else if e = 0x66 then (unquoteLoop fuel t1).map (fun p => (0x0C :: p.1, p.2))
          else if e = 0x6E then (unquoteLoop fuel t1).map (fun p => (0x0A :: p.1, p.2))
          else if e = 0x72 then (unquoteLoop fuel t1).map (fun p => (0x0D :: p.1, p.2))
          else if e = 0x74 then (unquoteLoop fuel t1).map (fun p => (0x09 :: p.1, p.2))
          else if e = 0x75 then
            match getu4 s with
            | none => none
            | some rr =>
              if 0xD800 ≤ rr ∧ rr < 0xE000 then
                match getu4 (s.drop 6) with
                | some rr1 =>
                  if utf16DecodeRune rr rr1 ≠ RuneError then
                    (unquoteLoop fuel (s.drop 12)).map
                      (fun p => (EncodeRune (utf16DecodeRune rr rr1) ++ p.1, p.2))
                  else
                    (unquoteLoop fuel (s.drop 6)).map
                      (fun p => (EncodeRune RuneError ++ p.1, p.2))
                | none =>
                  (unquoteLoop fuel (s.drop 6)).map
                    (fun p => (EncodeRune RuneError ++ p.1, p.2))
              else
                (unquoteLoop fuel (s.drop 6)).map (fun p => (EncodeRune rr ++ p.1, p.2))
          else none
      else if c < 0x20 then none
      else if c < 0x80 then (unquoteLoop fuel t).map (fun p => (c :: p.1, p.2))
      else
        (unquoteLoop fuel (s.drop (DecodeRune s).2)).map
          (fun p => (EncodeRune (DecodeRune s).1 ++ p.1, p.2))

/-- A JSON string literal after its opening quote. -/
def parseString (s : List Nat) : Option (GoString × List Nat) :=
  unquoteLoop (s.length + 1) s

/-- The longest prefix of decimal digits, and the rest. -/
def takeDigits : List Nat → List Nat × List Nat
  | [] => ([], [])
  | c :: t =>
    if 0x30 ≤ c ∧ c ≤ 0x39 then ((takeDigits t).1.cons c, (takeDigits t).2) else ([], c :: t)

/-- A JSON number: optional minus, integer part without leading zero, optional
fraction, optional exponent. -/
def parseNumber (s : List Nat) : Option (List Nat × List Nat) :=
  let sign : List Nat × List Nat :=
    match s with
    | 0x2D :: t => ([0x2D], t)
    | _ => ([], s)
  let int : Option (List Nat × List Nat) :=
    match sign.2 with
    | 0x30 :: t => some (sign.1 ++ [0x30], t)
    | c :: t =>
      if 0x31 ≤ c ∧ c ≤ 0x39 then some (sign.1 ++ c :: (takeDigits t).1, (takeDigits t).2)
      else none
    | [] => none
  match int with
  | none => none
  | some (n, s1) =>
    let frac : Option (List Nat × List Nat) :=
      match s1 with
      | 0x2E :: t =>
        if (takeDigits t).1 = [] then none else some (n ++ 0x2E :: (takeDigits t).1, (takeDigits t).2)
      | _ => some (n, s1)
    match frac with
    | none => none
    | some (n1, s2) =>
      match s2 with
      | e :: t =>
        if e = 0x65 ∨ e = 0x45 then
          let sg : List Nat × List Nat :=
            match t with
            | g :: t1 => if g = 0x2B ∨ g = 0x2D then ([g], t1) else ([], t)
            | [] => ([], t)
          if (takeDigits sg.2).1 = [] then none
          else some (n1 ++ e :: sg.1 ++ (takeDigits sg.2).1, (takeDigits sg.2).2)
        else some (n1, s2)
      | [] => some (n1, s2)

mutual

/-- One JSON value, after optional white space. -/
def parseValue : Nat → List Nat → Option (JSON × List Nat)
  | 0, _ => none
  | fuel + 1, s =>
    match skipSpace s with
    | [] => none
    | c :: t =>
      if c = 0x22 then (parseString t).map (fun p => (JSON.str p.1, p.2))
      else if c = 0x5B then
        match skipSpace t with
        | 0x5D :: rest => some (JSON.arr [], rest)
        | _ => (parseElems fuel t).map (fun p => (JSON.arr p.1, p.2))
      else if c = 0x7B then
        match skipSpace t with
        | 0x7D :: rest => some (JSON.obj [], rest)
        | _ => (parseMembers fuel t).map (fun p => (JSON.obj p.1, p.2))
      else if HasPrefix (c :: t) (str "null") then some (JSON.null, (c :: t).drop 4)
      else if HasPrefix (c :: t) (str "true") then some (JSON.bool true, (c :: t).drop 4)
      else if HasPrefix (c :: t) (str "false") then some (JSON.bool false, (c :: t).drop 5)
      else (parseNumber (c :: t)).map (fun p => (JSON.num p.1, p.2))

/-- The elements of a non-empty JSON array, up to and including the closing bracket. -/
def parseElems : Nat → List Nat → Option (List JSON × List Nat)
  | 0, _ => none
  | fuel + 1, s =>
    match parseValue fuel s with
    | none => none
    | some (v, rest) =>
      match skipSpace rest with
      | c :: rest1 =>
        if c = 0x2C then (parseElems fuel rest1).map (fun p => (v :: p.1, p.2))
        else if c = 0x5D then some ([v], rest1)
        else none
      | [] => none

/-- The members of a non-empty JSON object, up to and including the closing brace. -/
def parseMembers : Nat → List Nat → Option (List (GoString × JSON) × List Nat)
  | 0, _ => none
  | fuel + 1, s =>
    match skipSpace s with
    | c :: t =>
      if c = 0x22 then
        match parseString t with
        | none => none
        | some (key, rest) =>
          match skipSpace rest with
          | c1 :: rest1 =>
            if c1 = 0x3A then
              match parseValue fuel rest1 with
              | none => none
              | some (v, rest2) =>
                match skipSpace rest2 with
                | c2 :: rest3 =>
                  if c2 = 0x2C then
                    (parseMembers fuel rest3).map (fun p => ((key, v) :: p.1, p.2))
                  else if c2 = 0x7D then some ([(key, v)], rest3)
                  else none
                | [] => none
            else none
          | [] => none
      else none
    | [] => none

end

/-- ASCII upper-casing of a key, the folding under which Go matches an object
key with a struct field name made of the letters of `url`, `web` and `type`. -/
def foldKey (key : GoString) : GoString :=
  key.map (fun c => if 0x61 ≤ c ∧ c ≤ 0x7A then c - 0x20 else c)

/-- Stores one object member into a `DetectionResult`: a string value sets the
field whose name matches the key, `null` and unknown keys leave the record
unchanged, any other value for a known field is a type error. -/
def setField (r : DetectionResult) (member : GoString × JSON) : Option DetectionResult :=
  if foldKey member.1 = str "URL" then
    match member.2 with
    | JSON.str s => some { r with URL := s }
    | JSON.null => some r
    | _ => none
  else if foldKey member.1 = str "WEB" then
    match member.2 with
    | JSON.str s => some { r with Web := s }
    | JSON.null => some r
    | _ => none
  else if foldKey member.1 = str "TYPE" then
    match member.2 with
    | JSON.str s => some { r with Typ := s }
    | JSON.null => some r
    | _ => none
  else some r

/-- All members of an object stored in turn, starting from the record `r`. -/
def setFields : DetectionResult → List (GoString × JSON) → Option DetectionResult
  | r, [] => some r
  | r, m :: ms =>
    match setField r m with
    | none => none
    | some r1 => setFields r1 ms

/-- Decodes one array element into a `DetectionResult`. -/
def toResult (v : JSON) : Option DetectionResult :=
  match v with
  | JSON.obj members => setFields {} members
  | JSON.null => some {}
  | _ => none

/-- Decodes the elements of an array in order. -/
def toResults : List JSON → Option (List DetectionResult)
  | [] => some []
  | v :: vs =>
    match toResult v, toResults vs with
    | some r, some rs => some (r :: rs)
    | _, _ => none

/-- Go `json.Unmarshal(data, &results)` for `results` of type `[]DetectionResult`:
`none` stands for a returned error (syntax error, trailing data or type error). -/
def Unmarshal (data : GoString) : Option (List DetectionResult) :=
  match parseValue (2 * data.length + 2) data with
  | none => none
  | some (v, rest) =>
    if skipSpace rest = [] then
      match v with
      | JSON.null => some []
      | JSON.arr elems => toResults elems
      | _ => none
    else none

/-! ## Specification-level notions -/

/-- The literal-or-regex predicate of a signature on a text: some literal pattern
is a substring of the text, or some regex pattern compiles and finds a match. -/
def Matches (Compile : Compiler) (text : GoString) (web : Web) : Prop :=
  (∃ p ∈ web.Patterns, p <:+: text) ∨
  (∃ r ∈ web.RegexPatterns, ∃ re, Compile r = .ok re ∧ re text = true)

/-- The empty signature, Go's `Web{}`. -/
def emptyWeb : Web :=
  { ID := [], Patterns := [], RegexPatterns := [], Name := [], Typ := [] }

/-- A signature with every occurrence of the regex pattern `r` removed. -/
def dropRegex (r : GoString) (web : Web) : Web :=
  { web with RegexPatterns := web.RegexPatterns.filter (fun x => x ≠ r) }

/-! ## Concrete environments used to instantiate the theorems -/

/-- A network without state that answers every request from a fixed table. -/
def tableNet (answer : GoString → Except GoString GoString) : Net :=
  { World := Unit
    Response := GoString
    Get := fun _ url w => (answer url, w)
    ReadAll := fun body w => (.ok body, w) }

/-- The initial process state over a table network: nothing printed yet. -/
def startProc (answer : GoString → Except GoString GoString) : Proc (tableNet answer) :=
  { world := (), stdout := [], stderr := [] }

/-- A toy regexp engine for examples: the pattern `(` does not compile, every
other pattern is compiled to a literal search. -/
def toyCompile : Compiler := fun pattern =>
  if pattern = str "(" then .error (str "missing closing )")
  else .ok (fun s => Contains s pattern)

/-! ## Lemmas on the string helpers and the matcher -/

theorem hasPrefix_iff (s p : GoString) : HasPrefix s p = true ↔ p <+: s := by
  induction s generalizing p with
  | nil => cases p <;> simp [HasPrefix]
  | cons a s ih =>
    cases p with
    | nil => simp [HasPrefix]
    | cons b p =>
      simp only [HasPrefix, Bool.and_eq_true, beq_iff_eq, ih, List.cons_prefix_cons]
      constructor
      · rintro ⟨h, h2⟩; exact ⟨h.symm, h2⟩
      · rintro ⟨h, h2⟩; exact ⟨h.symm, h2⟩

theorem contains_iff (s substr : GoString) : Contains s substr = true ↔ substr <:+: s := by
  induction s with
  | nil => simp [Contains, hasPrefix_iff]
  | cons a s ih =>
    simp only [Contains, Bool.or_eq_true, hasPrefix_iff, ih, List.infix_cons_iff]

theorem matchPatterns_iff (text : GoString) (ps : List GoString) :
    matchPatterns text ps = true ↔ ∃ p ∈ ps, p <:+: text := by
  induction ps with
  | nil => simp [matchPatterns]
  | cons p ps ih =>
    by_cases h : Contains text p = true
    · simp only [matchPatterns, h, if_true, true_iff]
      exact ⟨p, List.mem_cons_self _ _, (contains_iff _ _).1 h⟩
    · have h2 : ¬ p <:+: text := fun hp => h ((contains_iff _ _).2 hp)
      simp only [matchPatterns, h, if_false, ih, List.mem_cons, Bool.false_eq_true]
      constructor
      · rintro ⟨q, hq, hqt⟩; exact ⟨q, Or.inr hq, hqt⟩
      · rintro ⟨q, hq | hq, hqt⟩
        · exact absurd (hq ▸ hqt) h2
        · exact ⟨q, hq, hqt⟩

theorem matchString_iff (Compile : Compiler) (r text : GoString) :
    (MatchString Compile r text).1 = true ↔ ∃ re, Compile r = .ok re ∧ re text = true := by
  unfold MatchString
  cases h : Compile r with
  | error e => simp
  | ok re => simp

theorem matchRegexPatterns_iff (Compile : Compiler) (text : GoString) (rs : List GoString) :
    matchRegexPatterns Compile text rs = true ↔
      ∃ r ∈ rs, ∃ re, Compile r = .ok re ∧ re text = true := by
  induction rs with
  | nil => simp [matchRegexPatterns]
  | cons r rs ih =>
    by_cases h : (MatchString Compile r text).1 = true
    · simp only [matchRegexPatterns, h, if_true, true_iff]
      exact ⟨r, List.mem_cons_self _ _, (matchString_iff _ _ _).1 h⟩
    · have h2 : ¬ ∃ re, Compile r = .ok re ∧ re text = true :=
        fun hp => h ((matchString_iff _ _ _).2 hp)
      simp only [matchRegexPatterns, h, if_false, ih, List.mem_cons, Bool.false_eq_true]
      constructor
      · rintro ⟨q, hq, hqt⟩; exact ⟨q, Or.inr hq, hqt⟩
      · rintro ⟨q, hq | hq, hqt⟩
        · exact absurd (hq ▸ hqt) h2
        · exact ⟨q, hq, hqt⟩

/-- One iteration of the outer loop of `detectWeb` returns exactly when the
signature satisfies the literal-or-regex predicate. -/
theorem matches_iff (Compile : Compiler) (text : GoString) (web : Web) :
    Matches Compile text web ↔
      (matchPatterns text web.Patterns = true ∨
        matchRegexPatterns Compile text web.RegexPatterns = true) := by
  unfold Matches
  rw [matchPatterns_iff, matchRegexPatterns_iff]

theorem detectWeb_cons_of_matches (Compile : Compiler) (text : GoString) (web : Web)
    (rest : List Web) (h : Matches Compile text web) :
    detectWeb Compile (web :: rest) text = web := by
  rw [matches_iff] at h
  unfold detectWeb
  rcases h with h | h
  · simp [h]
  · simp [h]

theorem detectWeb_cons_of_not_matches (Compile : Compiler) (text : GoString) (web : Web)
    (rest : List Web) (h : ¬ Matches Compile text web) :
    detectWeb Compile (web :: rest) text = detectWeb Compile rest text := by
  rw [matches_iff, not_or] at h
  conv => lhs; unfold detectWeb
  simp [h.1, h.2]

theorem detectWeb_of_no_match (Compile : Compiler) (text : GoString) (webList : List Web)
    (h : ∀ w ∈ webList, ¬ Matches Compile text w) :
    detectWeb Compile webList text = emptyWeb := by
  induction webList with
  | nil => rfl
  | cons web rest ih =>
    rw [detectWeb_cons_of_not_matches _ _ _ _ (h web (List.mem_cons_self _ _))]
    exact ih (fun w hw => h w (List.mem_cons_of_mem _ hw))

theorem detectWeb_of_first_match (Compile : Compiler) (text : GoString) (webList : List Web)
    (i : Nat) (w : Web) (hi : webList[i]? = some w) (hm : Matches Compile text w)
    (hfirst : ∀ (j : Nat) (v : Web), j < i → webList[j]? = some v → ¬ Matches Compile text v) :
    detectWeb Compile webList text = w := by
  induction webList generalizing i with
  | nil => simp at hi
  | cons web rest ih =>
    cases i with
    | zero =>
      simp at hi
      subst hi
      exact detectWeb_cons_of_matches _ _ _ _ hm
    | succ i =>
      have h0 : ¬ Matches Compile text web := hfirst 0 web (Nat.succ_pos _) (by simp)
      rw [detectWeb_cons_of_not_matches _ _ _ _ h0]
      apply ih i
      · simpa using hi
      · intro j v hj hv
        exact hfirst (j + 1) v (Nat.succ_lt_succ hj) (by simpa using hv)

theorem detectWeb_spec (Compile : Compiler) (webList : List Web) (text : GoString) :
    (∃ (i : Nat) (w : Web), webList[i]? = some w ∧ Matches Compile text w ∧
        (∀ (j : Nat) (v : Web), j < i → webList[j]? = some v → ¬ Matches Compile text v) ∧
        detectWeb Compile webList text = w) ∨
    ((∀ w ∈ webList, ¬ Matches Compile text w) ∧
        detectWeb Compile webList text = emptyWeb) := by
  induction webList with
  | nil => right; exact ⟨by simp, rfl⟩
  | cons web rest ih =>
    by_cases hm : Matches Compile text web
    · left
      refine ⟨0, web, by simp, hm, ?_, detectWeb_cons_of_matches _ _ _ _ hm⟩
      intro j v hj; omega
    · rw [detectWeb_cons_of_not_matches _ _ _ _ hm]
      rcases ih with ⟨i, w, hi, hw, hfirst, hd⟩ | ⟨hno, hd⟩
      · left
        refine ⟨i + 1, w, by simpa using hi, hw, ?_, hd⟩
        intro j v hj hv
        cases j with
        | zero => simp at hv; subst hv; exact hm
        | succ j => exact hfirst j v (by omega) (by simpa using hv)
      · right
        refine ⟨?_, hd⟩
        intro w hw
        rcases List.mem_cons.1 hw with rfl | hw
        · exact hm
        · exact hno w hw

/-! ## Lemmas on the pipeline -/

theorem processURL_of_error (N : Net) (Compile : Compiler) (url : GoString)
    (webList : List Web) (timeout : Int) (strict followRedirect logEnabled : Bool)
    (st : Proc N) (m : GoString) (w : N.World)
    (hfetch : fetchPageSource N url timeout strict followRedirect st.world = (.error m, w)) :
    processURL N Compile url webList timeout strict followRedirect logEnabled st =
      ({ URL := url, Web := str "error: " ++ m, Typ := [] },
        if logEnabled then
          { world := w, stdout := st.stdout,
            stderr := st.stderr ++ (str "Error fetching page source for " ++ url ++ str ": "
              ++ m ++ str "\n") }
        else { world := w, stdout := st.stdout, stderr := st.stderr }) := by
  unfold processURL
  rw [hfetch]

theorem processURL_of_ok (N : Net) (Compile : Compiler) (url : GoString)
    (webList : List Web) (timeout : Int) (strict followRedirect logEnabled : Bool)
    (st : Proc N) (text : GoString) (w : N.World)
    (hfetch : fetchPageSource N url timeout strict followRedirect st.world = (.ok text, w)) :
    processURL N Compile url webList timeout strict followRedirect logEnabled st =
      (if (detectWeb Compile webList text).Name ≠ [] then
          { URL := url, Web := (detectWeb Compile webList text).Name,
            Typ := (detectWeb Compile webList text).Typ }
        else { URL := url, Web := str "unknown", Typ := str "web" },
        { world := w, stdout := st.stdout, stderr := st.stderr }) := by
  unfold processURL
  rw [hfetch]
  by_cases h : (detectWeb Compile webList text).Name = []
  · simp [h]
  · simp [h]

theorem processURL_url (N : Net) (Compile : Compiler) (url : GoString)
    (webList : List Web) (timeout : Int) (strict followRedirect logEnabled : Bool)
    (st : Proc N) :
    (processURL N Compile url webList timeout strict followRedirect logEnabled st).1.URL
      = url := by
  rcases h : fetchPageSource N url timeout strict followRedirect st.world with ⟨out, w⟩
  cases out with
  | error m => rw [processURL_of_error _ _ _ _ _ _ _ _ _ m w h]
  | ok text =>
    rw [processURL_of_ok _ _ _ _ _ _ _ _ _ text w h]
    by_cases hn : (detectWeb Compile webList text).Name = []
    · simp [hn]
    · simp [hn]

theorem processURL_stdout (N : Net) (Compile : Compiler) (url : GoString)
    (webList : List Web) (timeout : Int) (strict followRedirect logEnabled : Bool)
    (st : Proc N) :
    (processURL N Compile url webList timeout strict followRedirect logEnabled st).2.stdout
      = st.stdout := by
  rcases h : fetchPageSource N url timeout strict followRedirect st.world with ⟨out, w⟩
  cases out with
  | error m =>
    rw [processURL_of_error _ _ _ _ _ _ _ _ _ m w h]
    cases logEnabled <;> simp
  | ok text => rw [processURL_of_ok _ _ _ _ _ _ _ _ _ text w h]

theorem mainLoop_acc (N : Net) (Compile : Compiler) (webList : List Web) (timeout : Int)
    (strict followRedirect logEnabled : Bool) (urls : List GoString)
    (acc : List DetectionResult) (st : Proc N) :
    mainLoop N Compile webList timeout strict followRedirect logEnabled urls acc st =
      (acc ++ (mainLoop N Compile webList timeout strict followRedirect logEnabled urls [] st).1,
        (mainLoop N Compile webList timeout strict followRedirect logEnabled urls [] st).2) := by
  induction urls generalizing acc st with
  | nil => simp [mainLoop]
  | cons u urls ih =>
    simp only [mainLoop]
    rw [ih (acc ++ _), ih ([] ++ _)]
    simp

theorem mainLoop_cons (N : Net) (Compile : Compiler) (webList : List Web) (timeout : Int)
    (strict followRedirect logEnabled : Bool) (u : GoString) (urls : List GoString)
    (st : Proc N) :
    mainLoop N Compile webList timeout strict followRedirect logEnabled (u :: urls) [] st =
      ((processURL N Compile u webList timeout strict followRedirect logEnabled st).1 ::
        (mainLoop N Compile webList timeout strict followRedirect logEnabled urls []
          { world := (processURL N Compile u webList timeout strict followRedirect
              logEnabled st).2.world
            stdout := (processURL N Compile u webList timeout strict followRedirect
              logEnabled st).2.stdout ++ progressLine (processURL N Compile u webList timeout
                strict followRedirect logEnabled st).1
            stderr := (processURL N Compile u webList timeout strict followRedirect
              logEnabled st).2.stderr }).1,
        (mainLoop N Compile webList timeout strict followRedirect logEnabled urls []
          { world := (processURL N Compile u webList timeout strict followRedirect
              logEnabled st).2.world
            stdout := (processURL N Compile u webList timeout strict followRedirect
              logEnabled st).2.stdout ++ progressLine (processURL N Compile u webList timeout
                strict followRedirect logEnabled st).1
            stderr := (processURL N Compile u webList timeout strict followRedirect
              logEnabled st).2.stderr }).2) := by
  conv => lhs; unfold mainLoop
  simp only []
  rw [mainLoop_acc]
  simp

theorem mainLoop_length (N : Net) (Compile : Compiler) (webList : List Web) (timeout : Int)
    (strict followRedirect logEnabled : Bool) (urls : List GoString) (st : Proc N) :
    (mainLoop N Compile webList timeout strict followRedirect logEnabled urls [] st).1.length
      = urls.length := by
  induction urls generalizing st with
  | nil => simp [mainLoop]
  | cons u urls ih => rw [mainLoop_cons]; simp [ih]

theorem mainLoop_get (N : Net) (Compile : Compiler) (webList : List Web) (timeout : Int)
    (strict followRedirect logEnabled : Bool) (urls : List GoString) (st : Proc N)
    (i : Nat) (u : GoString) (hu : urls[i]? = some u) :
    (mainLoop N Compile webList timeout strict followRedirect logEnabled urls [] st).1[i]? =
      some (processURL N Compile u webList timeout strict followRedirect logEnabled
        (mainLoop N Compile webList timeout strict followRedirect logEnabled
          (urls.take i) [] st).2).1 := by
  induction urls generalizing st i with
  | nil => simp at hu
  | cons v urls ih =>
    rw [mainLoop_cons]
    cases i with
    | zero =>
      simp at hu
      subst hu
      simp [mainLoop]
    | succ i =>
      simp only [List.getElem?_cons_succ] at hu ⊢
      rw [ih _ i hu, List.take_succ_cons, mainLoop_cons]

theorem mainLoop_stdout (N : Net) (Compile : Compiler) (webList : List Web) (timeout : Int)
    (strict followRedirect logEnabled : Bool) (urls : List GoString) (st : Proc N) :
    (mainLoop N Compile webList timeout strict followRedirect logEnabled urls [] st).2.stdout
      = st.stdout ++ ((mainLoop N Compile webList timeout strict followRedirect logEnabled
          urls [] st).1.map progressLine).flatten := by
  induction urls generalizing st with
  | nil => simp [mainLoop]
  | cons u urls ih =>
    rw [mainLoop_cons]
    simp only [ih, processURL_stdout, List.map_cons, List.flatten_cons, List.append_assoc]

/-! ## Lemmas on malformed regex patterns -/

theorem matchRegexPatterns_filter (Compile : Compiler) (r e : GoString)
    (hbad : Compile r = .error e) (text : GoString) (rs : List GoString) :
    matchRegexPatterns Compile text (rs.filter (fun x => x ≠ r))
      = matchRegexPatterns Compile text rs := by
  induction rs with
  | nil => rfl
  | cons x rs ih =>
    by_cases hx : x = r
    · subst hx
      have h1 : (MatchString Compile x text).1 = false := by
        unfold MatchString; rw [hbad]
      rw [List.filter_cons_of_neg (by simp), ih]
      simp [matchRegexPatterns, h1]
    · rw [List.filter_cons_of_pos (by simpa using hx)]
      simp only [matchRegexPatterns, ih]

theorem detectWeb_dropRegex (Compile : Compiler) (r e : GoString)
    (hbad : Compile r = .error e) (webList : List Web) (text : GoString) :
    detectWeb Compile (webList.map (dropRegex r)) text
      = dropRegex r (detectWeb Compile webList text) := by
  induction webList with
  | nil => rfl
  | cons web rest ih =>
    simp only [List.map_cons, detectWeb]
    have hp : (dropRegex r web).Patterns = web.Patterns := rfl
    have hr : matchRegexPatterns Compile text (dropRegex r web).RegexPatterns
        = matchRegexPatterns Compile text web.RegexPatterns :=
      matchRegexPatterns_filter Compile r e hbad text web.RegexPatterns
    rw [hp, hr, ih]
    by_cases h1 : matchPatterns text web.Patterns = true
    · simp [h1]
    · by_cases h2 : matchRegexPatterns Compile text web.RegexPatterns = true
      · simp [h1, h2]
      · simp [h1, h2]

/-! ## Lemmas on UTF-8 encoding and decoding -/

theorem and_7 (x : Nat) : x &&& 7 = x % 8 := Nat.and_pow_two_sub_one_eq_mod x 3

theorem and_0F (x : Nat) : x &&& 0x0F = x % 16 := Nat.and_pow_two_sub_one_eq_mod x 4

theorem and_1F (x : Nat) : x &&& 0x1F = x % 32 := Nat.and_pow_two_sub_one_eq_mod x 5

theorem and_3F (x : Nat) : x &&& 0x3F = x % 64 := Nat.and_pow_two_sub_one_eq_mod x 6

theorem or_eq_add (k a b : Nat) (ha : a % 2 ^ k = 0) (hb : b < 2 ^ k) : a ||| b = a + b := by
  have h := Nat.mul_add_lt_is_or hb (a / 2 ^ k)
  have h2 : 2 ^ k * (a / 2 ^ k) = a := by
    have := Nat.div_add_mod a (2 ^ k)
    omega
  rw [h2] at h
  exact h.symm

theorem bits2 (a b : Nat) : ((a &&& 0x1F) <<< 6) ||| (b &&& 0x3F) = a % 32 * 64 + b % 64 := by
  rw [and_1F, and_3F, Nat.shiftLeft_eq]
  exact or_eq_add 6 _ _ (by omega) (by omega)

theorem bits3 (a b c : Nat) :
    ((a &&& 0x0F) <<< 12) ||| ((b &&& 0x3F) <<< 6) ||| (c &&& 0x3F)
      = a % 16 * 4096 + b % 64 * 64 + c % 64 := by
  rw [and_0F, and_3F, and_3F, Nat.shiftLeft_eq, Nat.shiftLeft_eq,
    or_eq_add 12 (a % 16 * 2 ^ 12) (b % 64 * 2 ^ 6) (by omega) (by omega),
    or_eq_add 6 _ (c % 64) (by omega) (by omega)]

theorem bits4 (a b c d : Nat) :
    ((a &&& 0x07) <<< 18) ||| ((b &&& 0x3F) <<< 12) ||| ((c &&& 0x3F) <<< 6) ||| (d &&& 0x3F)
      = a % 8 * 262144 + b % 64 * 4096 + c % 64 * 64 + d % 64 := by
  rw [and_7, and_3F, and_3F, and_3F, Nat.shiftLeft_eq, Nat.shiftLeft_eq, Nat.shiftLeft_eq,
    or_eq_add 18 (a % 8 * 2 ^ 18) (b % 64 * 2 ^ 12) (by omega) (by omega),
    or_eq_add 12 _ (c % 64 * 2 ^ 6) (by omega) (by omega),
    or_eq_add 6 _ (d % 64) (by omega) (by omega)]

theorem shr_6 (x : Nat) : x >>> 6 = x / 64 := Nat.shiftRight_eq_div_pow x 6

theorem shr_12 (x : Nat) : x >>> 12 = x / 4096 := Nat.shiftRight_eq_div_pow x 12

theorem shr_18 (x : Nat) : x >>> 18 = x / 262144 := Nat.shiftRight_eq_div_pow x 18

theorem encodeRune_one (r : Nat) (h : r ≤ 0x7F) : EncodeRune r = [r] := by
  unfold EncodeRune
  rw [if_pos h, Nat.mod_eq_of_lt (by omega)]

theorem encodeRune_two (r : Nat) (h1 : 0x80 ≤ r) (h2 : r ≤ 0x7FF) :
    EncodeRune r = [192 + r / 64, 128 + r % 64] := by
  unfold EncodeRune
  rw [if_neg (by omega), if_pos h2, and_3F, shr_6,
    or_eq_add 6 0xC0 _ (by omega) (by omega), or_eq_add 6 0x80 _ (by omega) (by omega)]
  simp only [List.cons.injEq, and_true]
  omega

theorem encodeRune_three (r : Nat) (h1 : 0x800 ≤ r) (h2 : r ≤ 0xFFFF)
    (h3 : ¬ (0xD800 ≤ r ∧ r ≤ 0xDFFF)) :
    EncodeRune r = [224 + r / 4096, 128 + r / 64 % 64, 128 + r % 64] := by
  have hc : ¬ (r > 0x10FFFF ∨ (0xD800 ≤ r ∧ r ≤ 0xDFFF)) := by omega
  unfold EncodeRune
  rw [if_neg (by omega), if_neg (by omega)]
  simp only [hc, if_false]
  rw [if_pos h2, and_3F, and_3F, shr_6, shr_12,
    or_eq_add 5 0xE0 _ (by omega) (by omega), or_eq_add 6 0x80 _ (by omega) (by omega),
    or_eq_add 6 0x80 _ (by omega) (by omega)]
  simp only [List.cons.injEq, and_true]
  omega

theorem encodeRune_four (r : Nat) (h1 : 0x10000 ≤ r) (h2 : r ≤ 0x10FFFF) :
    EncodeRune r = [240 + r / 262144, 128 + r / 4096 % 64, 128 + r / 64 % 64, 128 + r % 64] := by
  have hc : ¬ (r > 0x10FFFF ∨ (0xD800 ≤ r ∧ r ≤ 0xDFFF)) := by omega
  unfold EncodeRune
  rw [if_neg (by omega), if_neg (by omega)]
  simp only [hc, if_false]
  rw [if_neg (by omega), and_3F, and_3F, and_3F, shr_6, shr_12, shr_18,
    or_eq_add 4 0xF0 _ (by omega) (by omega), or_eq_add 6 0x80 _ (by omega) (by omega),
    or_eq_add 6 0x80 _ (by omega) (by omega), or_eq_add 6 0x80 _ (by omega) (by omega)]
  simp only [List.cons.injEq, and_true]
  omega

theorem decodeRune_ascii (s0 : Nat) (t : List Nat) (h : s0 < 0x80) :
    DecodeRune (s0 :: t) = (s0, 1) := by
  simp [DecodeRune, first, h]

theorem decodeRune_two (s0 s1 : Nat) (t : List Nat) (h0 : 0xC2 ≤ s0) (h0' : s0 < 0xE0)
    (h1 : 0x80 ≤ s1) (h1' : s1 ≤ 0xBF) :
    DecodeRune (s0 :: s1 :: t) = (s0 % 32 * 64 + s1 % 64, 2) := by
  have e1 : ¬ s0 < 0x80 := by omega
  have e2 : ¬ s0 < 0xC2 := by omega
  have e3 : ¬ (s1 < 0x80 ∨ 0xBF < s1) := by omega
  simp only [DecodeRune, first, e1, e2, h0', if_true, if_false, and_7, acceptRanges]
  simp [e3, bits2]

theorem decodeRune_three (s0 s1 s2 : Nat) (t : List Nat) (h0 : 0xE0 ≤ s0) (h0' : s0 < 0xF0)
    (ha : s0 = 0xE0 → 0xA0 ≤ s1) (hb : s0 = 0xED → s1 ≤ 0x9F)
    (h1 : 0x80 ≤ s1) (h1' : s1 ≤ 0xBF) (h2 : 0x80 ≤ s2) (h2' : s2 ≤ 0xBF) :
    DecodeRune (s0 :: s1 :: s2 :: t) = (s0 % 16 * 4096 + s1 % 64 * 64 + s2 % 64, 3) := by
  have e1 : ¬ s0 < 0x80 := by omega
  have e2 : ¬ s0 < 0xC2 := by omega
  have e3 : ¬ s0 < 0xE0 := by omega
  have e4 : ¬ (s2 < 0x80 ∨ 0xBF < s2) := by omega
  by_cases c1 : s0 = 0xE0
  · have e5 : ¬ (s1 < 0xA0 ∨ 0xBF < s1) := by have := ha c1; omega
    subst c1
    simp [DecodeRune, first, acceptRanges, and_7, e4, e5, bits3]
  · by_cases c2 : s0 = 0xED
    · have e5 : ¬ (s1 < 0x80 ∨ 0x9F < s1) := by have := hb c2; omega
      subst c2
      simp [DecodeRune, first, acceptRanges, and_7, e4, e5, bits3]
    · have e5 : ¬ (s1 < 0x80 ∨ 0xBF < s1) := by omega
      by_cases c3 : s0 < 0xED
      · simp [DecodeRune, first, acceptRanges, and_7, e1, e2, e3, e4, e5, c1, c3, bits3]
      · simp [DecodeRune, first, acceptRanges, and_7, e1, e2, e3, e4, e5, c1, c2, c3, h0', bits3]

theorem decodeRune_four (s0 s1 s2 s3 : Nat) (t : List Nat) (h0 : 0xF0 ≤ s0) (h0' : s0 ≤ 0xF4)
    (ha : s0 = 0xF0 → 0x90 ≤ s1) (hb : s0 = 0xF4 → s1 ≤ 0x8F)
    (h1 : 0x80 ≤ s1) (h1' : s1 ≤ 0xBF) (h2 : 0x80 ≤ s2) (h2' : s2 ≤ 0xBF)
    (h3 : 0x80 ≤ s3) (h3' : s3 ≤ 0xBF) :
    DecodeRune (s0 :: s1 :: s2 :: s3 :: t)
      = (s0 % 8 * 262144 + s1 % 64 * 4096 + s2 % 64 * 64 + s3 % 64, 4) := by
  have e4 : ¬ (s2 < 0x80 ∨ 0xBF < s2) := by omega
  have e6 : ¬ (s3 < 0x80 ∨ 0xBF < s3) := by omega
  have el : ¬ (t.length + 1 + 1 + 1 + 1 < 4) := by omega
  rw [← bits4]
  by_cases c1 : s0 = 0xF0
  · have e5 : ¬ (s1 < 0x90 ∨ 0xBF < s1) := by have := ha c1; omega
    have hf : first s0 = 0x34 := by subst c1; simp [first]
    simp [DecodeRune, hf, acceptRanges, and_7, e4, e5, e6, el]
  · by_cases c2 : s0 = 0xF4
    · have e5 : ¬ (s1 < 0x80 ∨ 0x8F < s1) := by have := hb c2; omega
      have hf : first s0 = 0x44 := by subst c2; simp [first]
      simp [DecodeRune, hf, acceptRanges, and_7, e4, e5, e6, el]
    · have e5 : ¬ (s1 < 0x80 ∨ 0xBF < s1) := by omega
      have hf : first s0 = 0x04 := by
        have e1 : ¬ s0 < 0x80 := by omega
        have e2 : ¬ s0 < 0xC2 := by omega
        have e3 : ¬ s0 < 0xE0 := by omega
        have e7 : ¬ s0 = 0xE0 := by omega
        have e8 : ¬ s0 < 0xED := by omega
        have e9 : ¬ s0 = 0xED := by omega
        have e10 : ¬ s0 < 0xF0 := by omega
        have e11 : s0 < 0xF4 := by omega
        simp [first, e1, e2, e3, e7, e8, e9, e10, e11, c1]
      simp [DecodeRune, hf, acceptRanges, and_7, e4, e5, e6, el]

theorem first_cases (s0 : Nat) :
    (s0 < 0x80 ∧ first s0 = 0xF0) ∨ first s0 = 0xF1 ∨
    (0xC2 ≤ s0 ∧ s0 < 0xE0 ∧ first s0 = 0x02) ∨
    (s0 = 0xE0 ∧ first s0 = 0x13) ∨
    (0xE1 ≤ s0 ∧ s0 < 0xF0 ∧ s0 ≠ 0xED ∧ first s0 = 0x03) ∨
    (s0 = 0xED ∧ first s0 = 0x23) ∨
    (s0 = 0xF0 ∧ first s0 = 0x34) ∨
    (0xF1 ≤ s0 ∧ s0 < 0xF4 ∧ first s0 = 0x04) ∨
    (s0 = 0xF4 ∧ first s0 = 0x44) := by
  unfold first
  split_ifs <;> simp <;> omega

theorem decodeRune_cases (s0 : Nat) (t : List Nat)
    (hv : ¬ ((DecodeRune (s0 :: t)).1 = RuneError ∧ (DecodeRune (s0 :: t)).2 = 1)) :
    s0 < 0x80 ∨
    (∃ s1 t1, t = s1 :: t1 ∧ 0xC2 ≤ s0 ∧ s0 < 0xE0 ∧ 0x80 ≤ s1 ∧ s1 ≤ 0xBF) ∨
    (∃ s1 s2 t2, t = s1 :: s2 :: t2 ∧ 0xE0 ≤ s0 ∧ s0 < 0xF0 ∧ (s0 = 0xE0 → 0xA0 ≤ s1) ∧
      (s0 = 0xED → s1 ≤ 0x9F) ∧ 0x80 ≤ s1 ∧ s1 ≤ 0xBF ∧ 0x80 ≤ s2 ∧ s2 ≤ 0xBF) ∨
    (∃ s1 s2 s3 t3, t = s1 :: s2 :: s3 :: t3 ∧ 0xF0 ≤ s0 ∧ s0 ≤ 0xF4 ∧
      (s0 = 0xF0 → 0x90 ≤ s1) ∧ (s0 = 0xF4 → s1 ≤ 0x8F) ∧ 0x80 ≤ s1 ∧ s1 ≤ 0xBF ∧
      0x80 ≤ s2 ∧ s2 ≤ 0xBF ∧ 0x80 ≤ s3 ∧ s3 ≤ 0xBF) := by
  rcases first_cases s0 with ⟨h, _⟩ | hf | ⟨h0, h0', hf⟩ | ⟨h0, hf⟩ | ⟨h0, h0', h0n, hf⟩ |
    ⟨h0, hf⟩ | ⟨h0, hf⟩ | ⟨h0, h0', hf⟩ | ⟨h0, hf⟩
  · exact Or.inl h
  · exfalso; apply hv; simp [DecodeRune, hf]
  · rcases t with _ | ⟨s1, t1⟩
    · exfalso; apply hv; simp [DecodeRune, hf, and_7]
    · by_cases c1 : s1 < 0x80 ∨ 0xBF < s1
      · exfalso; apply hv; simp [DecodeRune, hf, and_7, acceptRanges, c1]
      · exact Or.inr (Or.inl ⟨s1, t1, rfl, h0, h0', by omega, by omega⟩)
  · rcases t with _ | ⟨s1, _ | ⟨s2, t2⟩⟩
    · exfalso; apply hv; simp [DecodeRune, hf, and_7]
    · exfalso; apply hv; simp [DecodeRune, hf, and_7]
    · by_cases c1 : s1 < 0xA0 ∨ 0xBF < s1
      · exfalso; apply hv; simp [DecodeRune, hf, and_7, acceptRanges, c1]
      · by_cases c2 : s2 < 0x80 ∨ 0xBF < s2
        · exfalso; apply hv; simp [DecodeRune, hf, and_7, acceptRanges, c1, c2]
        · exact Or.inr (Or.inr (Or.inl ⟨s1, s2, t2, rfl, by omega, by omega, by omega,
            by omega, by omega, by omega, by omega, by omega⟩))
  · rcases t with _ | ⟨s1, _ | ⟨s2, t2⟩⟩
    · exfalso; apply hv; simp [DecodeRune, hf, and_7]
    · exfalso; apply hv; simp [DecodeRune, hf, and_7]
    · by_cases c1 : s1 < 0x80 ∨ 0xBF < s1
      · exfalso; apply hv; simp [DecodeRune, hf, and_7, acceptRanges, c1]
      · by_cases c2 : s2 < 0x80 ∨ 0xBF < s2
        · exfalso; apply hv; simp [DecodeRune, hf, and_7, acceptRanges, c1, c2]
        · exact Or.inr (Or.inr (Or.inl ⟨s1, s2, t2, rfl, by omega, by omega, by omega,
            by omega, by omega, by omega, by omega, by omega⟩))
  · rcases t with _ | ⟨s1, _ | ⟨s2, t2⟩⟩
    · exfalso; apply hv; simp [DecodeRune, hf, and_7]
    · exfalso; apply hv; simp [DecodeRune, hf, and_7]
    · by_cases c1 : s1 < 0x80 ∨ 0x9F < s1
      · exfalso; apply hv; simp [DecodeRune, hf, and_7, acceptRanges, c1]
      · by_cases c2 : s2 < 0x80 ∨ 0xBF < s2
        · exfalso; apply hv; simp [DecodeRune, hf, and_7, acceptRanges, c1, c2]
        · exact Or.inr (Or.inr (Or.inl ⟨s1, s2, t2, rfl, by omega, by omega, by omega,
            by omega, by omega, by omega, by omega, by omega⟩))
  · rcases t with _ | ⟨s1, _ | ⟨s2, _ | ⟨s3, t3⟩⟩⟩
    · exfalso; apply hv; simp [DecodeRune, hf, and_7]
    · exfalso; apply hv; simp [DecodeRune, hf, and_7]
    · exfalso; apply hv; simp [DecodeRune, hf, and_7]
    · by_cases c1 : s1 < 0x90 ∨ 0xBF < s1
      · exfalso; apply hv; simp [DecodeRune, hf, and_7, acceptRanges, c1]
      · by_cases c2 : s2 < 0x80 ∨ 0xBF < s2
        · exfalso; apply hv; simp [DecodeRune, hf, and_7, acceptRanges, c1, c2]
        · by_cases c3 : s3 < 0x80 ∨ 0xBF < s3
          · exfalso; apply hv; simp [DecodeRune, hf, and_7, acceptRanges, c1, c2, c3]
          · exact Or.inr (Or.inr (Or.inr ⟨s1, s2, s3, t3, rfl, by omega, by omega, by omega,
              by omega, by omega, by omega, by omega, by omega, by omega, by omega⟩))
  · rcases t with _ | ⟨s1, _ | ⟨s2, _ | ⟨s3, t3⟩⟩⟩
    · exfalso; apply hv; simp [DecodeRune, hf, and_7]
    · exfalso; apply hv; simp [DecodeRune, hf, and_7]
    · exfalso; apply hv; simp [DecodeRune, hf, and_7]
    · by_cases c1 : s1 < 0x80 ∨ 0xBF < s1
      · exfalso; apply hv; simp [DecodeRune, hf, and_7, acceptRanges, c1]
      · by_cases c2 : s2 < 0x80 ∨ 0xBF < s2
        · exfalso; apply hv; simp [DecodeRune, hf, and_7, acceptRanges, c1, c2]
        · by_cases c3 : s3 < 0x80 ∨ 0xBF < s3
          · exfalso; apply hv; simp [DecodeRune, hf, and_7, acceptRanges, c1, c2, c3]
          · exact Or.inr (Or.inr (Or.inr ⟨s1, s2, s3, t3, rfl, by omega, by omega, by omega,
              by omega, by omega, by omega, by omega, by omega, by omega, by omega⟩))
  · rcases t with _ | ⟨s1, _ | ⟨s2, _ | ⟨s3, t3⟩⟩⟩
    · exfalso; apply hv; simp [DecodeRune, hf, and_7]
    · exfalso; apply hv; simp [DecodeRune, hf, and_7]
    · exfalso; apply hv; simp [DecodeRune, hf, and_7]
    · by_cases c1 : s1 < 0x80 ∨ 0x8F < s1
      · exfalso; apply hv; simp [DecodeRune, hf, and_7, acceptRanges, c1]
      · by_cases c2 : s2 < 0x80 ∨ 0xBF < s2
        · exfalso; apply hv; simp [DecodeRune, hf, and_7, acceptRanges, c1, c2]
        · by_cases c3 : s3 < 0x80 ∨ 0xBF < s3
          · exfalso; apply hv; simp [DecodeRune, hf, and_7, acceptRanges, c1, c2, c3]
          · exact Or.inr (Or.inr (Or.inr ⟨s1, s2, s3, t3, rfl, by omega, by omega, by omega,
              by omega, by omega, by omega, by omega, by omega, by omega, by omega⟩))

/-- A position that decodes without error holds the UTF-8 encoding of the decoded
rune: re-encoding gives back the bytes read, and decoding looks at those bytes only. -/
theorem decodeRune_valid (s0 : Nat) (t : List Nat)
    (hv : ¬ ((DecodeRune (s0 :: t)).1 = RuneError ∧ (DecodeRune (s0 :: t)).2 = 1)) :
    1 ≤ (DecodeRune (s0 :: t)).2 ∧ (DecodeRune (s0 :: t)).2 ≤ (s0 :: t).length ∧
    EncodeRune (DecodeRune (s0 :: t)).1 = (s0 :: t).take (DecodeRune (s0 :: t)).2 ∧
    (s0 < 0x80 ∨ 0x80 ≤ (DecodeRune (s0 :: t)).1) ∧
    ∀ tail, DecodeRune ((s0 :: t).take (DecodeRune (s0 :: t)).2 ++ tail)
      = DecodeRune (s0 :: t) := by
  rcases decodeRune_cases s0 t hv with h | ⟨s1, t1, rfl, h0, h0', h1, h1'⟩ |
    ⟨s1, s2, t2, rfl, h0, h0', ha, hb, h1, h1', h2, h2'⟩ |
    ⟨s1, s2, s3, t3, rfl, h0, h0', ha, hb, h1, h1', h2, h2', h3, h3'⟩
  · rw [decodeRune_ascii s0 t h]
    refine ⟨le_refl _, by simp, ?_, Or.inl h, ?_⟩
    · rw [encodeRune_one s0 (by omega)]; rfl
    · intro tail
      exact decodeRune_ascii s0 _ h
  · rw [decodeRune_two s0 s1 t1 h0 h0' h1 h1']
    refine ⟨by omega, by simp, ?_, Or.inr (by simp only []; omega), ?_⟩
    · simp only []
      rw [encodeRune_two _ (by omega) (by omega)]
      simp only [List.take_succ_cons, List.take_zero, List.cons.injEq, and_true]
      omega
    · intro tail
      exact decodeRune_two s0 s1 _ h0 h0' h1 h1'
  · rw [decodeRune_three s0 s1 s2 t2 h0 h0' ha hb h1 h1' h2 h2']
    refine ⟨by omega, by simp, ?_, Or.inr (by simp only []; omega), ?_⟩
    · simp only []
      rw [encodeRune_three _ (by omega) (by omega) (by omega)]
      simp only [List.take_succ_cons, List.take_zero, List.cons.injEq, and_true]
      omega
    · intro tail
      exact decodeRune_three s0 s1 s2 _ h0 h0' ha hb h1 h1' h2 h2'
  · rw [decodeRune_four s0 s1 s2 s3 t3 h0 h0' ha hb h1 h1' h2 h2' h3 h3']
    refine ⟨by omega, by simp, ?_, Or.inr (by simp only []; omega), ?_⟩
    · simp only []
      rw [encodeRune_four _ (by omega) (by omega)]
      simp only [List.take_succ_cons, List.take_zero, List.cons.injEq, and_true]
      omega
    · intro tail
      exact decodeRune_four s0 s1 s2 s3 _ h0 h0' ha hb h1 h1' h2 h2' h3 h3'

/-! ## Lemmas on JSON string literals -/

theorem hexVal_hex (n : Nat) (h : n < 16) : hexVal (hex n) = some n := by
  unfold hex hexVal
  by_cases h1 : n < 10
  · have e1 : 0x30 ≤ 0x30 + n ∧ 0x30 + n ≤ 0x39 := by omega
    simp only [h1, if_true, e1, and_self]
    congr 1
    omega
  · have e1 : ¬ (0x30 ≤ 0x61 + (n - 10) ∧ 0x61 + (n - 10) ≤ 0x39) := by omega
    have e2 : 0x61 ≤ 0x61 + (n - 10) ∧ 0x61 + (n - 10) ≤ 0x66 := by omega
    simp only [h1, if_false, e1, e2, and_self, if_true]
    congr 1
    omega

theorem getu4_hex (a b c d : Nat) (tail : List Nat) (ha : a < 16) (hb : b < 16) (hc : c < 16)
    (hd : d < 16) :
    getu4 (0x5C :: 0x75 :: hex a :: hex b :: hex c :: hex d :: tail)
      = some (((a * 16 + b) * 16 + c) * 16 + d) := by
  simp only [getu4, hexVal_hex a ha, hexVal_hex b hb, hexVal_hex c hc, hexVal_hex d hd]

/-- Unquoting a `\uXXXX` escape of a rune that is not a surrogate. -/
theorem unquoteLoop_u (fuel a b c d : Nat) (tail : List Nat) (ha : a < 16) (hb : b < 16)
    (hc : c < 16) (hd : d < 16)
    (hns : ¬ (0xD800 ≤ ((a * 16 + b) * 16 + c) * 16 + d ∧
      ((a * 16 + b) * 16 + c) * 16 + d < 0xE000)) :
    unquoteLoop (fuel + 1) (0x5C :: 0x75 :: hex a :: hex b :: hex c :: hex d :: tail)
      = (unquoteLoop fuel tail).map
          (fun p => (EncodeRune (((a * 16 + b) * 16 + c) * 16 + d) ++ p.1, p.2)) := by
  rw [unquoteLoop]
  simp only [getu4_hex a b c d tail ha hb hc hd, hns, if_false]
  simp

theorem unquoteLoop_ascii (fuel b : Nat) (tail : List Nat) (hb : b < 0x80) :
    unquoteLoop (fuel + 1) ((if htmlSafe b then [b] else escapeByte b) ++ tail)
      = (unquoteLoop fuel tail).map (fun p => (b :: p.1, p.2)) := by
  by_cases hs : htmlSafe b = true
  · rw [if_pos hs]
    have h := hs
    simp only [htmlSafe, decide_eq_true_eq] at h
    have e1 : ¬ b = 0x22 := by omega
    have e2 : ¬ b = 0x5C := by omega
    have e3 : ¬ b < 0x20 := by omega
    simp only [List.singleton_append, unquoteLoop, e1, e2, e3, hb, if_true, if_false]
  · rw [if_neg hs]
    unfold escapeByte
    by_cases c1 : b = 0x5C ∨ b = 0x22
    · rw [if_pos c1]
      have e4 : b = 0x22 ∨ b = 0x5C ∨ b = 0x2F := by omega
      simp [unquoteLoop, e4]
    · rw [if_neg c1]
      by_cases c2 : b = 0x08
      · subst c2; simp [unquoteLoop]
      · rw [if_neg c2]
        by_cases c3 : b = 0x0C
        · subst c3; simp [unquoteLoop]
        · rw [if_neg c3]
          by_cases c4 : b = 0x0A
          · subst c4; simp [unquoteLoop]
          · rw [if_neg c4]
            by_cases c5 : b = 0x0D
            · subst c5; simp [unquoteLoop]
            · rw [if_neg c5]
              by_cases c6 : b = 0x09
              · subst c6; simp [unquoteLoop]
              · rw [if_neg c6]
                have h0 : (0x30 : Nat) = hex 0 := by decide
                have hand : b &&& 0xF = b % 16 := and_0F b
                have hshr : b >>> 4 = b / 16 := Nat.shiftRight_eq_div_pow b 4
                rw [hand, hshr, h0]
                have hu := unquoteLoop_u fuel 0 0 (b / 16) (b % 16) tail (by omega) (by omega)
                  (by omega) (by omega) (by omega)
                have hval : ((0 * 16 + 0) * 16 + b / 16) * 16 + b % 16 = b := by omega
                rw [hval, encodeRune_one b (by omega)] at hu
                simpa using hu

theorem unquoteLoop_quote (fuel : Nat) (rest : List Nat) (h : 0 < fuel) :
    unquoteLoop fuel (0x22 :: rest) = some ([], rest) := by
  cases fuel with
  | zero => omega
  | succ n => simp [unquoteLoop]

/-- Unquoting what `appendString` wrote for a valid UTF-8 string gives the string back. -/
theorem unquoteLoop_appendStringLoop (G : Nat) :
    ∀ (s : List Nat), s.length ≤ G → validLoop G s = true →
      ∀ (rest : List Nat) (F : Nat), (appendStringLoop G s).length < F →
        unquoteLoop F (appendStringLoop G s ++ 0x22 :: rest) = some (s, rest) := by
  induction G with
  | zero =>
    intro s hlen _ rest F hF
    have hs : s = [] := List.length_eq_zero.1 (by omega)
    subst hs
    simpa [appendStringLoop] using unquoteLoop_quote F rest (by omega)
  | succ G ih =>
    intro s hlen hvalid rest F hF
    cases s with
    | nil => simpa [appendStringLoop] using unquoteLoop_quote F rest (by omega)
    | cons b t =>
      have hv : ¬ ((DecodeRune (b :: t)).1 = RuneError ∧ (DecodeRune (b :: t)).2 = 1) := by
        intro hbad
        simp [validLoop, hbad] at hvalid
      have hrec : validLoop G ((b :: t).drop (DecodeRune (b :: t)).2) = true := by
        simp only [validLoop, hv, if_false] at hvalid
        exact hvalid
      obtain ⟨hsz1, hsz2, henc, _, hpre⟩ := decodeRune_valid b t hv
      cases F with
      | zero => omega
      | succ F =>
        by_cases hb : b < 0x80
        · have hd : DecodeRune (b :: t) = (b, 1) := decodeRune_ascii b t hb
          rw [hd] at hrec
          simp only [List.drop_succ_cons, List.drop_zero] at hrec
          have hstep : appendStringLoop (G + 1) (b :: t)
              = (if htmlSafe b then [b] else escapeByte b) ++ appendStringLoop G t := by
            simp only [appendStringLoop, hb, if_true]
            by_cases hsafe : htmlSafe b = true
            · simp [hsafe]
            · simp [hsafe]
          rw [hstep] at hF ⊢
          have hpos : 0 < (if htmlSafe b then [b] else escapeByte b).length := by
            unfold escapeByte
            split_ifs <;> simp
          rw [List.append_assoc, unquoteLoop_ascii F b _ hb,
            ih t (by simpa using hlen) hrec rest F (by simp at hF; omega)]
          rfl
        · have hlen2 : ((b :: t).drop (DecodeRune (b :: t)).2).length ≤ G := by
            simp only [List.length_drop, List.length_cons] at hlen ⊢
            omega
          have hsplit : (b :: t).take (DecodeRune (b :: t)).2
              ++ (b :: t).drop (DecodeRune (b :: t)).2 = b :: t := List.take_append_drop _ _
          by_cases hls : (DecodeRune (b :: t)).1 = 0x2028 ∨ (DecodeRune (b :: t)).1 = 0x2029
          · have hstep : appendStringLoop (G + 1) (b :: t)
                = [0x5C, 0x75, hex 2, hex 0, hex 2, hex ((DecodeRune (b :: t)).1 % 16)]
                  ++ appendStringLoop G ((b :: t).drop (DecodeRune (b :: t)).2) := by
              simp only [appendStringLoop, hb, hv, hls, if_true, if_false, and_0F]
              rfl
            rw [hstep] at hF ⊢
            have hval : ((2 * 16 + 0) * 16 + 2) * 16 + (DecodeRune (b :: t)).1 % 16
                = (DecodeRune (b :: t)).1 := by omega
            have hu := unquoteLoop_u F 2 0 2 ((DecodeRune (b :: t)).1 % 16)
              (appendStringLoop G ((b :: t).drop (DecodeRune (b :: t)).2) ++ 0x22 :: rest)
              (by omega) (by omega) (by omega) (by omega) (by omega)
            rw [hval] at hu
            simp only [List.cons_append, List.nil_append, List.append_assoc] at hu ⊢
            rw [hu, ih _ hlen2 hrec rest F (by simp at hF; omega), henc]
            simp only [Option.map_some', hsplit]
          · have hstep : appendStringLoop (G + 1) (b :: t)
                = (b :: t).take (DecodeRune (b :: t)).2
                  ++ appendStringLoop G ((b :: t).drop (DecodeRune (b :: t)).2) := by
              simp only [appendStringLoop, hb, hv, hls, if_false]
            rw [hstep] at hF ⊢
            have htake : (b :: t).take (DecodeRune (b :: t)).2
                = b :: t.take ((DecodeRune (b :: t)).2 - 1) := by
              obtain ⟨k, hk⟩ : ∃ k, (DecodeRune (b :: t)).2 = k + 1 :=
                ⟨(DecodeRune (b :: t)).2 - 1, by omega⟩
              rw [hk]; simp
            have hlt : ((b :: t).take (DecodeRune (b :: t)).2).length = (DecodeRune (b :: t)).2 :=
              List.length_take_of_le hsz2
            have e1 : ¬ b = 0x22 := by omega
            have e2 : ¬ b = 0x5C := by omega
            have e3 : ¬ b < 0x20 := by omega
            have hdec := hpre (appendStringLoop G ((b :: t).drop (DecodeRune (b :: t)).2)
              ++ 0x22 :: rest)
            have hun : unquoteLoop (F + 1) ((b :: t).take (DecodeRune (b :: t)).2
                ++ (appendStringLoop G ((b :: t).drop (DecodeRune (b :: t)).2) ++ 0x22 :: rest))
                = (unquoteLoop F (appendStringLoop G ((b :: t).drop (DecodeRune (b :: t)).2)
                    ++ 0x22 :: rest)).map
                  (fun p => (EncodeRune (DecodeRune (b :: t)).1 ++ p.1, p.2)) := by
              generalize hX : appendStringLoop G ((b :: t).drop (DecodeRune (b :: t)).2)
                ++ 0x22 :: rest = X at hdec ⊢
              have hdrop : ((b :: t).take (DecodeRune (b :: t)).2 ++ X).drop
                  (DecodeRune (b :: t)).2 = X := by
                exact List.drop_left' hlt
              rw [htake] at hdec hdrop ⊢
              simp only [List.cons_append] at hdec hdrop ⊢
              simp only [unquoteLoop, e1, e2, e3, hb, if_false, hdec, hdrop]
            rw [List.append_assoc, hun, ih _ hlen2 hrec rest F (by
              simp only [List.length_append, hlt] at hF; omega), henc]
            simp only [Option.map_some', hsplit]

/-! ## Lemmas on parsing what `Marshal` writes -/

theorem parseString_appendStringLoop (s : GoString) (hv : ValidString s = true)
    (rest : List Nat) :
    parseString (appendStringLoop s.length s ++ 0x22 :: rest) = some (s, rest) := by
  unfold parseString
  exact unquoteLoop_appendStringLoop s.length s (le_refl _) hv rest _
    (by simp only [List.length_append, List.length_cons]; omega)

theorem appendString_append (s : GoString) (rest : List Nat) :
    appendString s ++ rest = 0x22 :: (appendStringLoop s.length s ++ 0x22 :: rest) := by
  simp [appendString]

theorem parseValue_appendString (fuel : Nat) (s : GoString) (hv : ValidString s = true)
    (rest : List Nat) :
    parseValue (fuel + 1) (appendString s ++ rest) = some (JSON.str s, rest) := by
  rw [appendString_append]
  simp [parseValue, skipSpace, isSpace, parseString_appendStringLoop s hv rest]

theorem parseMembers_last (fuel : Nat) (key v : GoString) (hk : ValidString key = true)
    (hv : ValidString v = true) (rest : List Nat) :
    parseMembers (fuel + 2) (appendString key ++ 0x3A :: (appendString v ++ 0x7D :: rest))
      = some ([(key, JSON.str v)], rest) := by
  rw [appendString_append]
  simp [parseMembers, skipSpace, isSpace, parseString_appendStringLoop key hk,
    parseValue_appendString fuel v hv]

theorem parseMembers_more (fuel : Nat) (key v : GoString) (hk : ValidString key = true)
    (hv : ValidString v = true) (rest : List Nat) :
    parseMembers (fuel + 2) (appendString key ++ 0x3A :: (appendString v ++ 0x2C :: rest))
      = (parseMembers (fuel + 1) rest).map (fun p => ((key, JSON.str v) :: p.1, p.2)) := by
  rw [appendString_append]
  simp [parseMembers, skipSpace, isSpace, parseString_appendStringLoop key hk,
    parseValue_appendString fuel v hv]

theorem marshalResult_eq (r : DetectionResult) (rest : List Nat) :
    marshalResult r ++ rest
      = 0x7B :: (appendString (str "url") ++ 0x3A :: (appendString r.URL ++ 0x2C ::
          (appendString (str "web") ++ 0x3A :: (appendString r.Web ++ 0x2C ::
            (appendString (str "type") ++ 0x3A :: (appendString r.Typ ++ 0x7D :: rest)))))) := by
  have e1 : str "\x7b\"url\":" = 0x7B :: (appendString (str "url") ++ [0x3A]) := by decide
  have e2 : str ",\"web\":" = 0x2C :: (appendString (str "web") ++ [0x3A]) := by decide
  have e3 : str ",\"type\":" = 0x2C :: (appendString (str "type") ++ [0x3A]) := by decide
  have e4 : str "\x7d" = [0x7D] := by decide
  unfold marshalResult
  rw [e1, e2, e3, e4]
  simp only [List.cons_append, List.append_assoc, List.nil_append]

/-- The JSON value that `Marshal` writes for one record. -/
theorem parseValue_marshalResult (fuel : Nat) (r : DetectionResult)
    (hv : ValidString r.URL = true ∧ ValidString r.Web = true ∧ ValidString r.Typ = true)
    (rest : List Nat) :
    parseValue (fuel + 5) (marshalResult r ++ rest)
      = some (JSON.obj [(str "url", JSON.str r.URL), (str "web", JSON.str r.Web),
          (str "type", JSON.str r.Typ)], rest) := by
  have k1 : ValidString (str "url") = true := by decide
  have k2 : ValidString (str "web") = true := by decide
  have k3 : ValidString (str "type") = true := by decide
  have hm : parseMembers (fuel + 4) (appendString (str "url") ++ 0x3A :: (appendString r.URL
      ++ 0x2C :: (appendString (str "web") ++ 0x3A :: (appendString r.Web ++ 0x2C ::
        (appendString (str "type") ++ 0x3A :: (appendString r.Typ ++ 0x7D :: rest))))))
      = some ([(str "url", JSON.str r.URL), (str "web", JSON.str r.Web),
          (str "type", JSON.str r.Typ)], rest) := by
    rw [parseMembers_more (fuel + 2) _ _ k1 hv.1, parseMembers_more (fuel + 1) _ _ k2 hv.2.1,
      parseMembers_last fuel _ _ k3 hv.2.2]
    rfl
  rw [marshalResult_eq]
  have hq : appendString (str "url") = 0x22 :: (appendStringLoop (str "url").length (str "url")
      ++ [0x22]) := rfl
  rw [parseValue]
  simp only [skipSpace, isSpace]
  rw [hq] at hm ⊢
  simp only [List.cons_append, List.append_assoc, List.singleton_append,
    List.nil_append] at hm ⊢
  simp [skipSpace, isSpace, hm]

theorem toResult_marshalled (r : DetectionResult) :
    toResult (JSON.obj [(str "url", JSON.str r.URL), (str "web", JSON.str r.Web),
      (str "type", JSON.str r.Typ)]) = some r := by
  have f1 : foldKey (str "url") = str "URL" := by decide
  have f2 : foldKey (str "web") = str "WEB" := by decide
  have f3 : foldKey (str "type") = str "TYPE" := by decide
  have n1 : ¬ str "WEB" = str "URL" := by decide
  have n2 : ¬ str "TYPE" = str "URL" := by decide
  have n3 : ¬ str "TYPE" = str "WEB" := by decide
  simp [toResult, setFields, setField, f1, f2, f3, n1, n2, n3]

theorem marshalElems_length (rs : List DetectionResult) :
    rs.length ≤ (marshalElems rs).length := by
  have h1 : ∀ r, 1 ≤ (marshalResult r).length := by
    intro r
    have := congrArg List.length (marshalResult_eq r [])
    simp only [List.append_nil, List.length_cons] at this
    omega
  induction rs with
  | nil => simp [marshalElems]
  | cons r rs ih =>
    cases rs with
    | nil => simpa [marshalElems] using h1 r
    | cons r2 rs2 =>
      simp only [marshalElems, List.length_append, List.length_cons] at ih ⊢
      have := h1 r
      omega

/-- The elements that `Marshal` writes, read back up to the closing bracket. -/
theorem parseElems_marshalElems (rs : List DetectionResult) (r : DetectionResult)
    (hv : ∀ x ∈ r :: rs,
      ValidString x.URL = true ∧ ValidString x.Web = true ∧ ValidString x.Typ = true)
    (fuel : Nat) (rest : List Nat) :
    ∃ vs, parseElems (fuel + (r :: rs).length + 5) (marshalElems (r :: rs) ++ 0x5D :: rest)
        = some (vs, rest) ∧ toResults vs = some (r :: rs) := by
  induction rs generalizing r fuel with
  | nil =>
    refine ⟨[JSON.obj [(str "url", JSON.str r.URL), (str "web", JSON.str r.Web),
      (str "type", JSON.str r.Typ)]], ?_, ?_⟩
    · have hp := parseValue_marshalResult fuel r (hv r (List.mem_cons_self _ _)) (0x5D :: rest)
      simp only [marshalElems, List.length_singleton]
      rw [parseElems, hp]
      simp [skipSpace, isSpace]
    · simp [toResults, toResult_marshalled]
  | cons r2 rs ih =>
    obtain ⟨vs, hvs, hres⟩ := ih r2 (fun x hx => hv x (List.mem_cons_of_mem _ hx)) fuel
    refine ⟨JSON.obj [(str "url", JSON.str r.URL), (str "web", JSON.str r.Web),
      (str "type", JSON.str r.Typ)] :: vs, ?_, ?_⟩
    · have hp := parseValue_marshalResult (fuel + (r2 :: rs).length) r
        (hv r (List.mem_cons_self _ _)) (0x2C :: (marshalElems (r2 :: rs) ++ 0x5D :: rest))
      have hfuel : fuel + (r :: r2 :: rs).length + 5 = (fuel + (r2 :: rs).length + 5) + 1 := by
        simp only [List.length_cons]; omega
      rw [hfuel]
      simp only [marshalElems, List.append_assoc, List.cons_append]
      rw [parseElems]
      rw [hp]
      simp only [skipSpace, isSpace]
      simp only [List.length_cons] at hvs
      simp [hvs]
    · simp [toResults, toResult_marshalled, hres]

theorem marshalElems_head (r : DetectionResult) (rs : List DetectionResult) (X : List Nat) :
    ∃ Y, marshalElems (r :: rs) ++ X = 0x7B :: Y := by
  cases rs with
  | nil =>
    rw [marshalElems, marshalResult_eq]
    exact ⟨_, rfl⟩
  | cons r2 rs2 =>
    have h : marshalElems (r :: r2 :: rs2)
        = marshalResult r ++ 0x2C :: marshalElems (r2 :: rs2) := rfl
    rw [h, List.append_assoc, marshalResult_eq]
    exact ⟨_, rfl⟩

/-! ## The matcher: first match wins -/

/-- C1: for every signature list and page text, `detectWeb` returns the first
signature in list order that has a literal pattern occurring in the text or a
regex pattern matching the text (index `i`, with no signature before `i`
satisfying the predicate), and returns the empty signature, all of whose fields
are empty, when no signature in the list satisfies it.  `detectWeb` is a function
of the list and the text, so the result for a fixed list and text is always the
same. -/
theorem detectWeb_returns_first_match (Compile : Compiler) (webList : List Web)
    (text : GoString) :
    (∃ (i : Nat) (w : Web), webList[i]? = some w ∧ Matches Compile text w ∧
        (∀ (j : Nat) (v : Web), j < i → webList[j]? = some v → ¬ Matches Compile text v) ∧
        detectWeb Compile webList text = w) ∨
    ((∀ w ∈ webList, ¬ Matches Compile text w) ∧
        detectWeb Compile webList text =
          { ID := [], Patterns := [], RegexPatterns := [], Name := [], Typ := [] }) :=
  detectWeb_spec Compile webList text

/-! ## The pipeline: one URL -/

/-- C2: when the fetch fails with message `m`, `processURL` returns exactly the
record with the input URL, technology `error: ` followed by `m`, and an empty
category; the outcome (record and process state) is the same for every signature
list and every regexp engine, the matcher not being consulted. -/
theorem processURL_fetch_failure (N : Net) (Compile : Compiler) (url : GoString)
    (webList : List Web) (timeout : Int) (strict followRedirect logEnabled : Bool)
    (st : Proc N) (m : GoString) (w : N.World)
    (hfetch : fetchPageSource N url timeout strict followRedirect st.world = (.error m, w)) :
    (processURL N Compile url webList timeout strict followRedirect logEnabled st).1
        = { URL := url, Web := str "error: " ++ m, Typ := [] } ∧
    ∀ (Compile2 : Compiler) (webList2 : List Web),
      processURL N Compile2 url webList2 timeout strict followRedirect logEnabled st
        = processURL N Compile url webList timeout strict followRedirect logEnabled st := by
  refine ⟨?_, ?_⟩
  · rw [processURL_of_error _ _ _ _ _ _ _ _ _ m w hfetch]
  · intro Compile2 webList2
    rw [processURL_of_error _ _ _ _ _ _ _ _ _ m w hfetch,
      processURL_of_error _ _ _ _ _ _ _ _ _ m w hfetch]

/-- A timed-out fetch of `http://a.test` with a WordPress signature in the store. -/
theorem processURL_fetch_failure_witness :
    (processURL (tableNet (fun _ => .error (str "timeout"))) toyCompile (str "http://a.test")
        [{ Name := str "WordPress", Typ := str "cms", Patterns := [str "wp-content"] }]
        10 false false true (startProc _)).1
      = { URL := str "http://a.test", Web := str "error: timeout", Typ := [] } :=
  (processURL_fetch_failure (tableNet (fun _ => .error (str "timeout"))) toyCompile
    (str "http://a.test")
    [{ Name := str "WordPress", Typ := str "cms", Patterns := [str "wp-content"] }]
    10 false false true (startProc _) (str "timeout") () rfl).1

/-- C3: when the fetch succeeds and no signature of the list matches the fetched
text (no literal pattern is a substring, no regex pattern matches), `processURL`
returns the input URL with technology `unknown` and category `web`. -/
theorem processURL_no_match (N : Net) (Compile : Compiler) (url : GoString)
    (webList : List Web) (timeout : Int) (strict followRedirect logEnabled : Bool)
    (st : Proc N) (text : GoString) (w : N.World)
    (hfetch : fetchPageSource N url timeout strict followRedirect st.world = (.ok text, w))
    (hno : ∀ web ∈ webList, ¬ Matches Compile text web) :
    (processURL N Compile url webList timeout strict followRedirect logEnabled st).1
        = { URL := url, Web := str "unknown", Typ := str "web" } := by
  rw [processURL_of_ok _ _ _ _ _ _ _ _ _ text w hfetch,
    detectWeb_of_no_match _ _ _ hno]
  simp [emptyWeb]

/-- A page without `wp-content`, scanned with the WordPress store. -/
theorem processURL_no_match_witness :
    (processURL (tableNet (fun _ => .ok (str "<html>hello</html>"))) toyCompile
        (str "http://a.test")
        [{ Name := str "WordPress", Typ := str "cms", Patterns := [str "wp-content"] }]
        10 false false false (startProc _)).1
      = { URL := str "http://a.test", Web := str "unknown", Typ := str "web" } :=
  processURL_no_match (tableNet (fun _ => .ok (str "<html>hello</html>"))) toyCompile
    (str "http://a.test")
    [{ Name := str "WordPress", Typ := str "cms", Patterns := [str "wp-content"] }]
    10 false false false (startProc _) (str "<html>hello</html>") () rfl
    (by
      intro web hweb
      rw [matches_iff]
      simp only [List.mem_singleton] at hweb
      subst hweb
      decide)

/-- C4: when the fetch succeeds and the signature returned by `detectWeb` has a
non-empty name, `processURL` returns the input URL with that signature's name as
technology and that signature's category; in particular, with the store holding
the single signature WordPress / cms / literal pattern `wp-content` (whatever its
id and regex patterns), every fetched text containing `/wp-content/themes/x.css`
gives technology `WordPress` and category `cms`. -/
theorem processURL_named_match (N : Net) (Compile : Compiler) (url : GoString)
    (webList : List Web) (timeout : Int) (strict followRedirect logEnabled : Bool)
    (st : Proc N) (text : GoString) (w : N.World)
    (hfetch : fetchPageSource N url timeout strict followRedirect st.world = (.ok text, w)) :
    ((detectWeb Compile webList text).Name ≠ [] →
      (processURL N Compile url webList timeout strict followRedirect logEnabled st).1
        = { URL := url, Web := (detectWeb Compile webList text).Name,
            Typ := (detectWeb Compile webList text).Typ }) ∧
    (str "/wp-content/themes/x.css" <:+: text →
      ∀ (id : GoString) (regexes : List GoString),
        (processURL N Compile url
            [{ ID := id, Patterns := [str "wp-content"], RegexPatterns := regexes,
               Name := str "WordPress", Typ := str "cms" }]
            timeout strict followRedirect logEnabled st).1
          = { URL := url, Web := str "WordPress", Typ := str "cms" }) := by
  refine ⟨?_, ?_⟩
  · intro hname
    rw [processURL_of_ok _ _ _ _ _ _ _ _ _ text w hfetch]
    simp [hname]
  · intro htext id regexes
    have hsub : str "wp-content" <:+: str "/wp-content/themes/x.css" := by
      rw [← contains_iff]; decide
    have hm : Matches Compile text
        { ID := id, Patterns := [str "wp-content"], RegexPatterns := regexes,
          Name := str "WordPress", Typ := str "cms" } :=
      Or.inl ⟨str "wp-content", List.mem_singleton_self _, hsub.trans htext⟩
    rw [processURL_of_ok _ _ _ _ _ _ _ _ _ text w hfetch,
      detectWeb_cons_of_matches _ _ _ _ hm]
    have hne : str "WordPress" ≠ [] := by decide
    simp [hne]

/-- The WordPress store on a page linking `/wp-content/themes/x.css`. -/
theorem processURL_named_match_witness :
    (processURL (tableNet (fun _ => .ok (str "<link href=\"/wp-content/themes/x.css\">")))
        toyCompile (str "http://a.test")
        [{ Name := str "WordPress", Typ := str "cms", Patterns := [str "wp-content"] }]
        10 false false false (startProc _)).1
      = { URL := str "http://a.test", Web := str "WordPress", Typ := str "cms" } :=
  (processURL_named_match (tableNet (fun _ => .ok (str "<link href=\"/wp-content/themes/x.css\">")))
    toyCompile (str "http://a.test")
    [{ Name := str "WordPress", Typ := str "cms", Patterns := [str "wp-content"] }]
    10 false false false (startProc _) (str "<link href=\"/wp-content/themes/x.css\">") ()
    rfl).1 (by decide)

/-- C10: when the fetch succeeds and the earliest signature of the list that
matches the text (index `i`) has an empty name, `processURL` returns technology
`unknown` and category `web`: the category of that signature is discarded, and no
later signature is reported, whatever the signatures after index `i` are. -/
theorem processURL_unnamed_first_match (N : Net) (Compile : Compiler) (url : GoString)
    (webList : List Web) (timeout : Int) (strict followRedirect logEnabled : Bool)
    (st : Proc N) (text : GoString) (w : N.World) (i : Nat) (web : Web)
    (hfetch : fetchPageSource N url timeout strict followRedirect st.world = (.ok text, w))
    (hi : webList[i]? = some web) (hm : Matches Compile text web)
    (hfirst : ∀ (j : Nat) (v : Web), j < i → webList[j]? = some v → ¬ Matches Compile text v)
    (hname : web.Name = []) :
    (processURL N Compile url webList timeout strict followRedirect logEnabled st).1
        = { URL := url, Web := str "unknown", Typ := str "web" } := by
  rw [processURL_of_ok _ _ _ _ _ _ _ _ _ text w hfetch,
    detectWeb_of_first_match _ _ _ i web hi hm hfirst]
  simp [hname]

/-- An unnamed signature of category `cdn` matching before a named one that matches too. -/
theorem processURL_unnamed_first_match_witness :
    (processURL (tableNet (fun _ => .ok (str "/wp-content/"))) toyCompile (str "http://a.test")
        [{ Name := [], Typ := str "cdn", Patterns := [str "content"] },
         { Name := str "WordPress", Typ := str "cms", Patterns := [str "wp-content"] }]
        10 false false false (startProc _)).1
      = { URL := str "http://a.test", Web := str "unknown", Typ := str "web" } :=
  processURL_unnamed_first_match (tableNet (fun _ => .ok (str "/wp-content/"))) toyCompile
    (str "http://a.test")
    [{ Name := [], Typ := str "cdn", Patterns := [str "content"] },
     { Name := str "WordPress", Typ := str "cms", Patterns := [str "wp-content"] }]
    10 false false false (startProc _) (str "/wp-content/") () 0
    { Name := [], Typ := str "cdn", Patterns := [str "content"] } rfl rfl
    (Or.inl ⟨str "content", List.mem_singleton_self _, by rw [← contains_iff]; decide⟩)
    (fun j v hj => absurd hj (Nat.not_lt_zero j)) rfl

/-- C5 fails as stated: the pattern `(` does not compile, and on the text `abc`
the store below returns its signature `B` with the regex list `(`, `b`, while the
same store with `(` removed returns `B` with the regex list `b` alone; the two
results are the same list entry but not equal values, the returned signature
carrying its own regex list. -/
theorem detectWeb_malformed_regex_counterexample :
    toyCompile (str "(") = .error (str "missing closing )") ∧
    detectWeb toyCompile
        [{ Name := str "A", RegexPatterns := [str "(", str "zz"] },
         { Name := str "B", RegexPatterns := [str "(", str "b"] }] (str "abc")
      = { Name := str "B", RegexPatterns := [str "(", str "b"] } ∧
    detectWeb toyCompile
        [{ Name := str "A", RegexPatterns := [str "zz"] },
         { Name := str "B", RegexPatterns := [str "b"] }] (str "abc")
      = { Name := str "B", RegexPatterns := [str "b"] } ∧
    detectWeb toyCompile
        [{ Name := str "A", RegexPatterns := [str "(", str "zz"] },
         { Name := str "B", RegexPatterns := [str "(", str "b"] }] (str "abc")
      ≠ detectWeb toyCompile
        [{ Name := str "A", RegexPatterns := [str "zz"] },
         { Name := str "B", RegexPatterns := [str "b"] }] (str "abc") := by
  refine ⟨rfl, ?_, ?_, ?_⟩ <;> decide

/-- C5, amended: a regex pattern `r` that does not compile is a non-match for
that pattern only and never aborts the scan: `regexp.MatchString` yields `false`
on it, every signature satisfies the literal-or-regex predicate exactly when it
does with `r` removed, and `detectWeb` on the list with `r` removed from every
signature selects the entry at the same index as on the original list (or the
empty signature on both when no entry matches).  The signature returned for the
pruned list is the one returned for the original list with `r` removed from its
regex list: id, literal patterns, name and category are equal, and `processURL`
yields the same outcome with either list. -/
theorem detectWeb_malformed_regex_ignored (Compile : Compiler) (r e : GoString)
    (hbad : Compile r = .error e) (webList : List Web) (text : GoString) :
    (MatchString Compile r text).1 = false ∧
    (∀ web : Web, Matches Compile text (dropRegex r web) ↔ Matches Compile text web) ∧
    detectWeb Compile (webList.map (dropRegex r)) text
      = dropRegex r (detectWeb Compile webList text) ∧
    (detectWeb Compile (webList.map (dropRegex r)) text).ID
      = (detectWeb Compile webList text).ID ∧
    (detectWeb Compile (webList.map (dropRegex r)) text).Patterns
      = (detectWeb Compile webList text).Patterns ∧
    (detectWeb Compile (webList.map (dropRegex r)) text).Name
      = (detectWeb Compile webList text).Name ∧
    (detectWeb Compile (webList.map (dropRegex r)) text).Typ
      = (detectWeb Compile webList text).Typ ∧
    (∀ (N : Net) (url : GoString) (timeout : Int) (strict followRedirect logEnabled : Bool)
      (st : Proc N),
      processURL N Compile url (webList.map (dropRegex r)) timeout strict followRedirect
          logEnabled st
        = processURL N Compile url webList timeout strict followRedirect logEnabled st) ∧
    ((∃ (i : Nat) (w : Web), webList[i]? = some w ∧
        (webList.map (dropRegex r))[i]? = some (dropRegex r w) ∧
        Matches Compile text w ∧
        (∀ (j : Nat) (v : Web), j < i → webList[j]? = some v → ¬ Matches Compile text v) ∧
        detectWeb Compile webList text = w ∧
        detectWeb Compile (webList.map (dropRegex r)) text = dropRegex r w) ∨
     ((∀ w ∈ webList, ¬ Matches Compile text w) ∧
        detectWeb Compile webList text
          = { ID := [], Patterns := [], RegexPatterns := [], Name := [], Typ := [] } ∧
        detectWeb Compile (webList.map (dropRegex r)) text
          = { ID := [], Patterns := [], RegexPatterns := [], Name := [], Typ := [] })) := by
  have hd := detectWeb_dropRegex Compile r e hbad webList
  refine ⟨?_, ?_, hd text, ?_, ?_, ?_, ?_, ?_, ?_⟩
  · unfold MatchString; rw [hbad]
  · intro web
    rw [matches_iff, matches_iff]
    have hr : matchRegexPatterns Compile text (dropRegex r web).RegexPatterns
        = matchRegexPatterns Compile text web.RegexPatterns :=
      matchRegexPatterns_filter Compile r e hbad text web.RegexPatterns
    rw [hr]
    rfl
  · rw [hd]; rfl
  · rw [hd]; rfl
  · rw [hd]; rfl
  · rw [hd]; rfl
  · intro N url timeout strict followRedirect logEnabled st
    unfold processURL
    rcases fetchPageSource N url timeout strict followRedirect st.world with ⟨out, w⟩
    cases out with
    | error m => rfl
    | ok page =>
      simp only [hd page]
      rfl
  · rcases detectWeb_spec Compile webList text with ⟨i, w, hi, hm, hfirst, hw⟩ | ⟨hno, hw⟩
    · left
      refine ⟨i, w, hi, ?_, hm, hfirst, hw, ?_⟩
      · rw [List.getElem?_map, hi]; rfl
      · rw [hd, hw]
    · right
      refine ⟨hno, hw, ?_⟩
      rw [hd, hw]; rfl

/-- The malformed pattern `(` in front of a pattern that matches, and a later signature. -/
theorem detectWeb_malformed_regex_ignored_witness :
    detectWeb toyCompile
        (List.map (dropRegex (str "("))
          [{ Name := str "A", RegexPatterns := [str "(", str "zz"] },
           { Name := str "B", RegexPatterns := [str "(", str "b"] }]) (str "abc")
      = dropRegex (str "(") (detectWeb toyCompile
          [{ Name := str "A", RegexPatterns := [str "(", str "zz"] },
           { Name := str "B", RegexPatterns := [str "(", str "b"] }] (str "abc")) ∧
    (processURL (tableNet (fun _ => .ok (str "abc"))) toyCompile (str "http://a.test")
        (List.map (dropRegex (str "("))
          [{ Name := str "A", RegexPatterns := [str "(", str "zz"] },
           { Name := str "B", RegexPatterns := [str "(", str "b"] }])
        10 false false false (startProc _)).1
      = { URL := str "http://a.test", Web := str "B", Typ := [] } :=
  ⟨(detectWeb_malformed_regex_ignored toyCompile (str "(") (str "missing closing )") rfl
      [{ Name := str "A", RegexPatterns := [str "(", str "zz"] },
       { Name := str "B", RegexPatterns := [str "(", str "b"] }] (str "abc")).2.2.1,
    by decide⟩

/-! ## The pipeline: the loop of `main` -/

/-- C6: for every URL list and every behaviour of the network, the loop of `main`
(started with no results) yields a result list of the same length as the URL
list; its `i`-th record is the result of `processURL` on the `i`-th URL, run in
the process state reached after the first `i` URLs, and the `URL` field of that
record is the `i`-th input string unchanged — whatever the fetch outcome was. -/
theorem mainLoop_one_result_per_url (N : Net) (Compile : Compiler) (webList : List Web)
    (timeout : Int) (strict followRedirect logEnabled : Bool) (urls : List GoString)
    (st : Proc N) :
    (mainLoop N Compile webList timeout strict followRedirect logEnabled urls [] st).1.length
      = urls.length ∧
    ∀ (i : Fin urls.length),
      (mainLoop N Compile webList timeout strict followRedirect logEnabled urls [] st).1[i.val]?
        = some (processURL N Compile (urls.get i) webList timeout strict followRedirect
            logEnabled
            (mainLoop N Compile webList timeout strict followRedirect logEnabled
              (urls.take i.val) [] st).2).1 ∧
      (processURL N Compile (urls.get i) webList timeout strict followRedirect logEnabled
          (mainLoop N Compile webList timeout strict followRedirect logEnabled
            (urls.take i.val) [] st).2).1.URL = urls.get i := by
  refine ⟨mainLoop_length _ _ _ _ _ _ _ _ _, ?_⟩
  intro i
  refine ⟨?_, processURL_url _ _ _ _ _ _ _ _ _⟩
  apply mainLoop_get
  simp [List.getElem?_eq_getElem i.isLt]

/-! ## Progress lines -/

/-- C7 fails as stated: a store whose signature is named `unknown`, or has a name
beginning with `error` such as `errorception`, matches the fetched page (the
fetch succeeds and the returned signature has a non-empty name), yet the
progress line is the URL followed by a space, not `<url> [<category>:<technology>]`. -/
theorem progressLine_matched_counterexample :
    (detectWeb toyCompile [{ Name := str "unknown", Typ := str "cms", Patterns := [str "x"] }]
        (str "x")).Name ≠ [] ∧
    (processURL (tableNet (fun _ => .ok (str "x"))) toyCompile (str "http://a.test")
        [{ Name := str "unknown", Typ := str "cms", Patterns := [str "x"] }]
        10 false false false (startProc _)).1
      = { URL := str "http://a.test", Web := str "unknown", Typ := str "cms" } ∧
    (mainLoop (tableNet (fun _ => .ok (str "x"))) toyCompile
        [{ Name := str "unknown", Typ := str "cms", Patterns := [str "x"] }]
        10 false false false [str "http://a.test"] [] (startProc _)).2.stdout
      = str "http://a.test \n" ∧
    str "http://a.test \n" ≠ str "http://a.test [cms:unknown]\n" ∧
    (processURL (tableNet (fun _ => .ok (str "x"))) toyCompile (str "http://a.test")
        [{ Name := str "errorception", Typ := str "monitoring", Patterns := [str "x"] }]
        10 false false false (startProc _)).1
      = { URL := str "http://a.test", Web := str "errorception", Typ := str "monitoring" } ∧
    (mainLoop (tableNet (fun _ => .ok (str "x"))) toyCompile
        [{ Name := str "errorception", Typ := str "monitoring", Patterns := [str "x"] }]
        10 false false false [str "http://a.test"] [] (startProc _)).2.stdout
      = str "http://a.test \n" := by
  decide

/-- C7, amended: the loop of `main` appends to standard output exactly one
progress line per result, in order; the line is the URL followed by a space (and
the newline) when the technology is `unknown` or begins with `error`, and is
`<url> [<category>:<technology>]` otherwise.  Hence a matched URL (fetch
succeeded, returned signature named) gets the bracketed line exactly when the
name of its signature is not `unknown` and does not begin with `error`. -/
theorem progressLine_by_technology (N : Net) (Compile : Compiler) (webList : List Web)
    (timeout : Int) (strict followRedirect logEnabled : Bool) (urls : List GoString)
    (st : Proc N) :
    (mainLoop N Compile webList timeout strict followRedirect logEnabled urls [] st).2.stdout
      = st.stdout ++ ((mainLoop N Compile webList timeout strict followRedirect logEnabled
          urls [] st).1.map progressLine).flatten ∧
    (∀ r : DetectionResult,
      ((r.Web = str "unknown" ∨ str "error" <+: r.Web) →
        progressLine r = r.URL ++ str " \n") ∧
      (¬ (r.Web = str "unknown" ∨ str "error" <+: r.Web) →
        progressLine r = r.URL ++ str " [" ++ r.Typ ++ str ":" ++ r.Web ++ str "]\n")) ∧
    (∀ (url text : GoString) (st1 : Proc N) (w : N.World),
      fetchPageSource N url timeout strict followRedirect st1.world = (.ok text, w) →
      (detectWeb Compile webList text).Name ≠ [] →
      (progressLine (processURL N Compile url webList timeout strict followRedirect
          logEnabled st1).1
        = url ++ str " [" ++ (detectWeb Compile webList text).Typ ++ str ":"
            ++ (detectWeb Compile webList text).Name ++ str "]\n"
        ↔ ¬ ((detectWeb Compile webList text).Name = str "unknown" ∨
              str "error" <+: (detectWeb Compile webList text).Name))) := by
  have hline : ∀ r : DetectionResult,
      ((r.Web = str "unknown" ∨ str "error" <+: r.Web) →
        progressLine r = r.URL ++ str " \n") ∧
      (¬ (r.Web = str "unknown" ∨ str "error" <+: r.Web) →
        progressLine r = r.URL ++ str " [" ++ r.Typ ++ str ":" ++ r.Web ++ str "]\n") := by
    intro r
    unfold progressLine
    rw [← hasPrefix_iff]
    constructor
    · intro h
      have : (r.Web == str "unknown" || HasPrefix r.Web (str "error")) = true := by
        simpa using h
      rw [if_pos this]
    · intro h
      have : ¬ (r.Web == str "unknown" || HasPrefix r.Web (str "error")) = true := by
        simpa using h
      rw [if_neg this]
  refine ⟨mainLoop_stdout _ _ _ _ _ _ _ _ _, hline, ?_⟩
  intro url text st1 w hfetch hname
  rw [processURL_of_ok _ _ _ _ _ _ _ _ _ text w hfetch]
  simp only [hname, ne_eq, not_false_eq_true, if_true]
  constructor
  · intro hl hbare
    have h2 := (hline ⟨url, (detectWeb Compile webList text).Name,
      (detectWeb Compile webList text).Typ⟩).1 hbare
    rw [h2] at hl
    simp only [List.append_assoc] at hl
    have h3 := List.append_cancel_left hl
    have e1 : str " \n" = [32, 10] := by decide
    have e2 : str " [" = [32, 91] := by decide
    rw [e1, e2] at h3
    simp at h3
  · intro hnot
    exact (hline ⟨url, (detectWeb Compile webList text).Name,
      (detectWeb Compile webList text).Typ⟩).2 hnot

/-- A WordPress result gets the bracketed progress line. -/
theorem progressLine_by_technology_witness :
    progressLine { URL := str "http://a.test", Web := str "WordPress", Typ := str "cms" }
      = str "http://a.test [cms:WordPress]\n" :=
  ((progressLine_by_technology (tableNet (fun _ => .ok [])) toyCompile [] 10 false false false
      [] (startProc _)).2.1
    { URL := str "http://a.test", Web := str "WordPress", Typ := str "cms" }).2 (by decide)

/-! ## Redirect policy -/

/-- C8 fails as stated: with `followRedirect` true, the redirect policy of the
client built by `fetchPageSource` has no hop limit — for every candidate limit
there is a chain with that many requests already made whose next redirect the
policy accepts (it returns Go's `nil`). -/
theorem checkRedirect_no_hop_limit :
    ¬ ∃ limit : Nat, ∀ (timeout : Int) (strict : Bool) (req : Request) (via : List Request),
        via.length = limit → (newClient timeout strict true).CheckRedirect req via ≠ none := by
  rintro ⟨limit, h⟩
  exact h 10 false ⟨[]⟩ (List.replicate limit ⟨[]⟩) (List.length_replicate _ _) rfl

/-- C8, amended: with `followRedirect` true the redirect policy of the client
built by `fetchPageSource` accepts every redirect, however many requests have
already been made; with `followRedirect` false it refuses every redirect with
`http.ErrUseLastResponse`, so the first redirect response is returned. -/
theorem checkRedirect_policy (timeout : Int) (strict : Bool) (req : Request)
    (via : List Request) :
    (newClient timeout strict true).CheckRedirect req via = none ∧
    (newClient timeout strict false).CheckRedirect req via = some ErrUseLastResponse :=
  ⟨rfl, rfl⟩

/-! ## JSON report: rendering and reading back -/

/-- C9 fails as stated: a URL that is not valid UTF-8 (here `http://a.test/caf`
followed by the single byte `0xE9`, as read from a Latin-1 URL list) is kept
unchanged in the result produced by the pipeline, but `json.Marshal` writes its
invalid byte as the escape `\ufffd`; reading the JSON back gives U+FFFD (bytes `EF BF BD`)
in its place, so the parsed record differs from the original.  No parser could
do better: two different result lists are rendered to the same JSON text. -/
theorem marshal_roundtrip_counterexample :
    (mainLoop (tableNet (fun _ => .ok (str "hello"))) toyCompile [] 10 false false false
        [str "http://a.test/caf" ++ [0xE9]] [] (startProc _)).1
      = [{ URL := str "http://a.test/caf" ++ [0xE9], Web := str "unknown", Typ := str "web" }] ∧
    Unmarshal (Marshal
        [{ URL := str "http://a.test/caf" ++ [0xE9], Web := str "unknown", Typ := str "web" }])
      = some [{ URL := str "http://a.test/caf" ++ [0xEF, 0xBF, 0xBD], Web := str "unknown",
                Typ := str "web" }] ∧
    Unmarshal (Marshal
        [{ URL := str "http://a.test/caf" ++ [0xE9], Web := str "unknown", Typ := str "web" }])
      ≠ some [{ URL := str "http://a.test/caf" ++ [0xE9], Web := str "unknown",
                Typ := str "web" }] ∧
    Marshal [{ URL := str "http://a.test/caf" ++ [0xE9], Web := str "unknown", Typ := str "web" }]
      = Marshal
          [{ URL := str "http://a.test/caf" ++ [0xFF], Web := str "unknown", Typ := str "web" }] := by
  decide

/-- C9, amended: for every list of `DetectionResult` records whose three fields
are valid UTF-8, rendering the list as the json output format does (`null` for
the empty list, otherwise an array of objects with the keys `url`, `web`, `type`)
and parsing that JSON back yields the original list: same length, same order,
every record equal field for field. -/
theorem unmarshal_marshal_roundtrip (results : List DetectionResult)
    (hvalid : ∀ r ∈ results,
      ValidString r.URL = true ∧ ValidString r.Web = true ∧ ValidString r.Typ = true) :
    Unmarshal (Marshal results) = some results := by
  cases results with
  | nil => decide
  | cons r rs =>
    obtain ⟨fuel, hfuel⟩ : ∃ fuel, 2 * (Marshal (r :: rs)).length + 2
        = (fuel + (r :: rs).length + 5) + 1 := by
      have h := marshalElems_length (r :: rs)
      refine ⟨2 * (Marshal (r :: rs)).length + 2 - ((r :: rs).length + 6), ?_⟩
      simp only [Marshal, List.length_cons, List.length_append, List.length_nil] at h ⊢
      omega
    obtain ⟨vs, hvs, hres⟩ := parseElems_marshalElems rs r hvalid fuel []
    have hbrace := marshalElems_head r rs [0x5D]
    obtain ⟨Y, hY⟩ := hbrace
    unfold Unmarshal
    rw [hfuel]
    have hparse : parseValue (fuel + (r :: rs).length + 5 + 1) (Marshal (r :: rs))
        = some (JSON.arr vs, []) := by
      simp only [Marshal]
      rw [parseValue]
      simp only [skipSpace, isSpace]
      rw [hY] at hvs ⊢
      simp only [List.length_cons] at hvs
      simp [skipSpace, isSpace, hvs]
    rw [hparse]
    simp [skipSpace, hres]

/-- A report with non-ASCII text, quotes, a backslash, a line break and `<`, `&`. -/
theorem unmarshal_marshal_roundtrip_witness :
    Unmarshal (Marshal
        [{ URL := str "http://a.test/café?q=<1>&r=\"2\"", Web := str "Wörd\\Press\n",
           Typ := str "cms" },
         { URL := str "http://b.test", Web := str "error: timeout", Typ := [] }])
      = some
        [{ URL := str "http://a.test/café?q=<1>&r=\"2\"", Web := str "Wörd\\Press\n",
           Typ := str "cms" },
         { URL := str "http://b.test", Web := str "error: timeout", Typ := [] }] :=
  unmarshal_marshal_roundtrip _ (by decide)

end WebDetector
